import Mathlib

/-!
# Snake on the ESP32-2432S028: a shallow embedding of `src/main.cpp`

The sketch keeps its whole state in global variables and advances it from
`loop()`.  Here the globals become the fields of `Game`, every function of
the sketch becomes a function on `Game`, and the three external
collaborators that carry data into the program become explicit inputs:

* the touch controller: one pass of `loop()` receives `Option TS_Point`
  (`none` when `ts.touched()` is false, otherwise the point of `getPoint()`);
* the clock: the value returned by `millis()` in that pass;
* the random generator: a stream `rng : Nat → Nat` of raw generator outputs
  together with the number `seed` of outputs consumed so far.

Drawing calls and delays change nothing of the state and are left out.
`int` values are modelled by `Int`; `long` arithmetic inside `map` is reduced
to 32 bits, and the `unsigned long` clock difference is taken modulo `2^32`.
-/

namespace SnakeGame

/-! ## Constants and data -/

/-- Screen width in pixels (`const int SCREEN_W = 240`). -/
def SCREEN_W : Int := 240

/-- Screen height in pixels (`const int SCREEN_H = 320`). -/
def SCREEN_H : Int := 320

/-- Cell size in pixels (`const int CELL = 10`). -/
def CELL : Int := 10

/-- Grid columns (`const int COLS = SCREEN_W / CELL`). -/
def COLS : Int := Int.tdiv SCREEN_W CELL

/-- Grid rows (`const int ROWS = SCREEN_H / CELL`). -/
def ROWS : Int := Int.tdiv SCREEN_H CELL

/-- Tick interval in milliseconds (`int speedMs = 150`, never assigned). -/
def speedMs : Nat := 150

/-- Grid cell (`struct Point { int x, y; }`). -/
structure Point where
  x : Int
  y : Int
deriving DecidableEq, Repr

/-- Raw touch sample (`TS_Point` of the XPT2046 driver; the pressure `z` is never read). -/
structure TS_Point where
  x : Int
  y : Int
deriving DecidableEq, Repr

/-- Global variables of the sketch, with the count of generator outputs consumed. -/
structure Game where
  TS_MINX : Int
  TS_MAXX : Int
  TS_MINY : Int
  TS_MAXY : Int
  snake : List Point
  food : Point
  dirX : Int
  dirY : Int
  lastMove : Nat
  gameOver : Bool
  seed : Nat
deriving DecidableEq, Repr

/-- Inputs of one pass of `loop()`: the touch poll and the clock reading. -/
structure Pass where
  touch : Option TS_Point
  now : Nat
deriving DecidableEq, Repr

/-! ## Library functions used by the sketch -/

/-- Two's-complement reduction of an integer to the 32-bit `long` of the ESP32. -/
def wrap32 (v : Int) : Int := (v + 2147483648) % 4294967296 - 2147483648

/-- Arduino core `random(howsmall, howbig)` applied to the raw generator output `r`:
`howsmall` on an empty range, otherwise `r % (howbig - howsmall) + howsmall`. -/
def random (howsmall howbig : Int) (r : Nat) : Int :=
  if howsmall ≥ howbig then howsmall else (r : Int) % (howbig - howsmall) + howsmall

/-- Arduino-ESP32 core `map(x, in_min, in_max, out_min, out_max)`: `-1` on an empty
input range, otherwise `(x - in_min) * (out_max - out_min) / (in_max - in_min) + out_min`
in truncating 32-bit `long` arithmetic.  No clamping is applied. -/
def map (x in_min in_max out_min out_max : Int) : Int :=
  let run := wrap32 (in_max - in_min)
  if run = 0 then -1
  else
    let rise := wrap32 (out_max - out_min)
    let delta := wrap32 (x - in_min)
    wrap32 (wrap32 (Int.tdiv (wrap32 (delta * rise)) run) + out_min)

/-- Arduino `abs(x)` macro: `((x) > 0 ? (x) : -(x))`. -/
def abs (v : Int) : Int := if v > 0 then v else -v

/-! ## Food placement -/

/-- Scan of `placeFood`: `for (auto &p : snake) if (p.x == fx && p.y == fy) onSnake = true`. -/
def onSnake (snake : List Point) (fx fy : Int) : Bool :=
  snake.any (fun p => p.x == fx && p.y == fy)

/-- Cell sampled by the iteration of `placeFood` that starts at generator position `pos`:
`fx = random(0, COLS)` then `fy = random(0, ROWS)`. -/
def sample (rng : Nat → Nat) (pos : Nat) : Point :=
  ⟨random 0 COLS (rng pos), random 0 ROWS (rng (pos + 1))⟩

/-- Rejection loop of `placeFood()`, run for at most `fuel` iterations from generator
position `pos`.  Returns the food cell and the new generator position, or `none` when
the loop has not ended within `fuel` iterations. -/
def placeFood (rng : Nat → Nat) (snake : List Point) : Nat → Nat → Option (Point × Nat)
  | 0, _ => none
  | fuel + 1, pos =>
    let fx := random 0 COLS (rng pos)
    let fy := random 0 ROWS (rng (pos + 1))
    if onSnake snake fx fy then placeFood rng snake fuel (pos + 2)
    else some (⟨fx, fy⟩, pos + 2)

/-! ## Game engine -/

/-- Body of `resetGame()`: three cells centred on the grid, heading right, fresh food. -/
def resetGame (rng : Nat → Nat) (fuel : Nat) (g : Game) : Option Game :=
  let snake : List Point :=
    [⟨Int.tdiv COLS 2, Int.tdiv ROWS 2⟩, ⟨Int.tdiv COLS 2 - 1, Int.tdiv ROWS 2⟩,
     ⟨Int.tdiv COLS 2 - 2, Int.tdiv ROWS 2⟩]
  match placeFood rng snake fuel g.seed with
  | none => none
  | some (f, seed1) =>
    some { g with snake := snake, dirX := 1, dirY := 0, food := f, seed := seed1,
                  gameOver := false }

/-- Candidate head of a tick: `nh = { head.x + dirX, head.y + dirY }` followed by the four
wrap-around assignments, in source order. -/
def newHead (head : Point) (dirX dirY : Int) : Point :=
  let nx := head.x + dirX
  let ny := head.y + dirY
  let nx := if nx < 0 then COLS - 1 else nx
  let nx := if nx ≥ COLS then 0 else nx
  let ny := if ny < 0 then ROWS - 1 else ny
  let ny := if ny ≥ ROWS then 0 else ny
  ⟨nx, ny⟩

/-- Step part of `loop()` (from `Point head = snake.front()` to the end): self-collision
check, `push_front`, then either `placeFood()` or `pop_back()`.  `none` stands for a tick
that does not return: `front()` of an empty deque, or a food loop that outlasts `fuel`. -/
def tick (rng : Nat → Nat) (fuel : Nat) (g : Game) : Option Game :=
  match g.snake with
  | [] => none
  | head :: _ =>
    let nh := newHead head g.dirX g.dirY
    if onSnake g.snake nh.x nh.y then some { g with gameOver := true }
    else
      let snake1 := nh :: g.snake
      if nh.x = g.food.x ∧ nh.y = g.food.y then
        match placeFood rng snake1 fuel g.seed with
        | none => none
        | some (f, seed1) => some { g with snake := snake1, food := f, seed := seed1 }
      else some { g with snake := snake1.dropLast }

/-! ## Calibration and controls -/

/-- Bounds computed at the end of `calibrateTouch()` from the four corner samples
(top-left, top-right, bottom-right, bottom-left), stored in the globals. -/
def calibrateTouch (c0 c1 c2 c3 : TS_Point) (g : Game) : Game :=
  let minx := min (min c0.x c3.x) (min c1.x c2.x)
  let maxx := max (max c0.x c3.x) (max c1.x c2.x)
  let miny := min (min c0.y c1.y) (min c2.y c3.y)
  let maxy := max (max c0.y c1.y) (max c2.y c3.y)
  { g with TS_MINX := minx, TS_MAXX := maxx, TS_MINY := miny, TS_MAXY := maxy }

/-- Crosshair targets of `calibrateTouch()`: `cornersX[i]`, `cornersY[i]`. -/
def corners : List Point :=
  [⟨20, 20⟩, ⟨SCREEN_W - 20, 20⟩, ⟨SCREEN_W - 20, SCREEN_H - 20⟩, ⟨20, SCREEN_H - 20⟩]

/-- Raw-to-screen mapping at the head of `readControls()`:
`x = map(p.x, TS_MINX, TS_MAXX, 0, SCREEN_W - 1)`, `y = map(p.y, TS_MINY, TS_MAXY, 0, SCREEN_H - 1)`. -/
def mapToScreen (p : TS_Point) (g : Game) : Point :=
  ⟨map p.x g.TS_MINX g.TS_MAXX 0 (SCREEN_W - 1), map p.y g.TS_MINY g.TS_MAXY 0 (SCREEN_H - 1)⟩

/-- Heading update of `readControls()` for the mapped touch point `(x, y)`. -/
def steer (x y : Int) (g : Game) : Game :=
  let cx := Int.tdiv SCREEN_W 2
  let cy := Int.tdiv SCREEN_H 2
  let dx := x - cx
  let dy := y - cy
  if abs dx > abs dy then
    if dx < 0 ∧ g.dirX = 0 then { g with dirX := -1, dirY := 0 }
    else if dx > 0 ∧ g.dirX = 0 then { g with dirX := 1, dirY := 0 }
    else g
  else
    if dy < 0 ∧ g.dirY = 0 then { g with dirX := 0, dirY := -1 }
    else if dy > 0 ∧ g.dirY = 0 then { g with dirX := 0, dirY := 1 }
    else g

/-- State change of `readControls()`: nothing without a touch, otherwise map and steer. -/
def readControls (touch : Option TS_Point) (g : Game) : Game :=
  match touch with
  | none => g
  | some p => steer (mapToScreen p g).x (mapToScreen p g).y g

/-- One pass of `loop()`: in the terminal state a touch restarts the game; otherwise
`readControls()`, then the gate `now - lastMove < speedMs` in 32-bit unsigned arithmetic,
then `lastMove = now` and the tick. -/
def loop (rng : Nat → Nat) (fuel : Nat) (inp : Pass) (g : Game) : Option Game :=
  if g.gameOver then
    if inp.touch.isSome then resetGame rng fuel g else some g
  else
    let g1 := readControls inp.touch g
    let now := inp.now % 4294967296
    if (now + 4294967296 - g1.lastMove % 4294967296) % 4294967296 < speedMs then some g1
    else tick rng fuel { g1 with lastMove := now }

/-- Sequence of passes of `loop()`, stopping when a pass does not return. -/
def run (rng : Nat → Nat) (fuel : Nat) : List Pass → Game → Option Game
  | [], g => some g
  | inp :: rest, g =>
    match loop rng fuel inp g with
    | none => none
    | some g1 => run rng fuel rest g1

/-- State before `setup()` calls `resetGame()`: default calibration, initialised globals. -/
def boot : Game :=
  { TS_MINX := 200, TS_MAXX := 3900, TS_MINY := 200, TS_MAXY := 3900,
    snake := [], food := ⟨0, 0⟩, dirX := 1, dirY := 0, lastMove := 0,
    gameOver := false, seed := 0 }

/-! ## Concrete inputs used by the scenarios -/

/-- Generator whose every raw output is `0`, so that every sample is the cell `(0, 0)`. -/
def zeroRng : Nat → Nat := fun _ => 0

/-- Generator that replays the listed raw outputs and then yields `0`. -/
def listRng (outputs : List Nat) : Nat → Nat := fun n => outputs.getD n 0

/-- Running game with the snake of `resetGame()` and the given food cell, heading right. -/
def centred (food : Point) : Game :=
  { boot with snake := [⟨12, 16⟩, ⟨11, 16⟩, ⟨10, 16⟩], food := food }

/-- Running game with the snake head on the left edge, heading left, food at `(5, 5)`. -/
def leftEdge : Game :=
  { boot with snake := [⟨0, 16⟩, ⟨1, 16⟩, ⟨2, 16⟩], dirX := -1, dirY := 0, food := ⟨5, 5⟩ }

/-- Running game whose snake has turned back on itself: heading right from `(5, 5)` the
candidate head `(6, 5)` is the fourth cell of the snake. -/
def coiled : Game :=
  { boot with snake := [⟨5, 5⟩, ⟨5, 6⟩, ⟨6, 6⟩, ⟨6, 5⟩, ⟨7, 5⟩], food := ⟨1, 1⟩ }

/-- Heading predicate of the data model: one of the four unit vectors. -/
def isUnit (dx dy : Int) : Prop :=
  (dx = 1 ∧ dy = 0) ∨ (dx = -1 ∧ dy = 0) ∨ (dx = 0 ∧ dy = 1) ∨ (dx = 0 ∧ dy = -1)

instance (dx dy : Int) : Decidable (isUnit dx dy) := by
  unfold isUnit; infer_instance

/-- Headings seen along a sequence of `readControls()` calls: the heading before the first
call, then the heading after each call. -/
def headingTrace : List (Option TS_Point) → Game → List (Int × Int)
  | [], g => [(g.dirX, g.dirY)]
  | t :: rest, g => (g.dirX, g.dirY) :: headingTrace rest (readControls t g)

/-- Three passes of `loop()` under the default calibration: a pass without touch when the
tick interval has elapsed, a touch above the centre 90 ms later, and a touch left of the
centre another 90 ms later. -/
def doubleTurn : List Pass :=
  [⟨none, 150⟩, ⟨some ⟨2050, 200⟩, 240⟩, ⟨some ⟨200, 2050⟩, 330⟩]

/-- Closeness asked of the calibration: the mapped point of the raw sample `c` lies within
one pixel of `target` on each axis. -/
def reproduces (c : TS_Point) (target : Point) (g : Game) : Prop :=
  |(mapToScreen c g).x - target.x| ≤ 1 ∧ |(mapToScreen c g).y - target.y| ≤ 1

instance (c : TS_Point) (target : Point) (g : Game) : Decidable (reproduces c target g) := by
  unfold reproduces; infer_instance

/-- Range of the 16-bit fields of a touch sample. -/
def isInt16 (v : Int) : Prop := -32768 ≤ v ∧ v ≤ 32767

instance (v : Int) : Decidable (isInt16 v) := by
  unfold isInt16; infer_instance

/-- Calibration with all four corner samples at raw column `500`: the bounds derived by
`calibrateTouch()` have zero width on the X axis.  The game is heading down. -/
def flatCalibration : Game :=
  calibrateTouch ⟨500, 300⟩ ⟨500, 300⟩ ⟨500, 3800⟩ ⟨500, 3800⟩
    { centred ⟨5, 5⟩ with dirX := 0, dirY := 1 }

/-- Spec-side bound of the calibration record: the pure minimum over the four corner
samples of one axis, taken in the order top-left, top-right, bottom-right, bottom-left. -/
def pureMin (v0 v1 v2 v3 : Int) : Int := [v1, v2, v3].foldl min v0

/-- Spec-side bound of the calibration record: the pure maximum over the four corner
samples of one axis, taken in the order top-left, top-right, bottom-right, bottom-left. -/
def pureMax (v0 v1 v2 v3 : Int) : Int := [v1, v2, v3].foldl max v0

/-- Cell predicate of the data model: `0 ≤ x < COLS` and `0 ≤ y < ROWS`. -/
def inGrid (p : Point) : Prop := 0 ≤ p.x ∧ p.x < COLS ∧ 0 ≤ p.y ∧ p.y < ROWS

instance (p : Point) : Decidable (inGrid p) := by
  unfold inGrid; infer_instance

/-- Terminal state reached from the reset snake by running into its own second cell. -/
def crashed : Game :=
  { centred ⟨5, 5⟩ with dirX := -1, dirY := 0, lastMove := 330, gameOver := true }

/-- States reachable from `resetGame()`.  `reset` is the result of `resetGame()` on any
prior state, which covers the call from `setup()` and every restart; `control` is one call
of `readControls()`; `step` is one game tick, preceded by `lastMove = now` as in `loop()`. -/
inductive Reachable (rng : Nat → Nat) : Game → Prop
  | reset (fuel : Nat) (g g1 : Game) :
      resetGame rng fuel g = some g1 → Reachable rng g1
  | control (t : Option TS_Point) (g : Game) :
      Reachable rng g → Reachable rng (readControls t g)
  | step (fuel now : Nat) (g g1 : Game) :
      Reachable rng g → tick rng fuel { g with lastMove := now } = some g1 → Reachable rng g1

/-- Invariant carried by every reachable state: unit heading, at least three distinct
snake cells, all inside the grid, and food inside the grid and off the snake. -/
def Safe (g : Game) : Prop :=
  isUnit g.dirX g.dirY ∧ 3 ≤ g.snake.length ∧ g.snake.Nodup ∧
    (∀ p ∈ g.snake, inGrid p) ∧ inGrid g.food ∧ g.food ∉ g.snake

/-- State in which `setup()` leaves the game when every sample is the cell `(0, 0)`. -/
def fresh : Game := { centred ⟨0, 0⟩ with seed := 2 }

/-! ## Basic facts -/

theorem COLS_eq : COLS = 24 := by decide

theorem ROWS_eq : ROWS = 32 := by decide

theorem onSnake_iff (snake : List Point) (fx fy : Int) :
    onSnake snake fx fy = true ↔ (⟨fx, fy⟩ : Point) ∈ snake := by
  unfold onSnake
  rw [List.any_eq_true]
  constructor
  · rintro ⟨p, hp, h⟩
    simp only [Bool.and_eq_true, beq_iff_eq] at h
    obtain ⟨px, py⟩ := p
    simp only at h
    obtain ⟨rfl, rfl⟩ := h
    exact hp
  · intro h
    exact ⟨⟨fx, fy⟩, h, by simp⟩

theorem onSnake_point (snake : List Point) (p : Point) :
    onSnake snake p.x p.y = true ↔ p ∈ snake :=
  onSnake_iff snake p.x p.y

theorem sample_inGrid (rng : Nat → Nat) (pos : Nat) :
    0 ≤ (sample rng pos).x ∧ (sample rng pos).x < COLS ∧
    0 ≤ (sample rng pos).y ∧ (sample rng pos).y < ROWS := by
  simp only [sample, random, COLS_eq, ROWS_eq]
  norm_num
  omega

/-- Characterisation of the rejection loop: it returns `(f, pos1)` exactly when some
iteration `k < fuel` is the first whose sample is off the snake, `f` is that sample and
two generator outputs were consumed per iteration. -/
theorem placeFood_eq_some_iff (rng : Nat → Nat) (snake : List Point) (fuel pos : Nat)
    (f : Point) (pos1 : Nat) :
    placeFood rng snake fuel pos = some (f, pos1) ↔
      ∃ k, k < fuel ∧ (∀ j, j < k → sample rng (pos + 2 * j) ∈ snake) ∧
        sample rng (pos + 2 * k) ∉ snake ∧ f = sample rng (pos + 2 * k) ∧
        pos1 = pos + 2 * k + 2 := by
  induction fuel generalizing pos with
  | zero => simp [placeFood]
  | succ n ih =>
    unfold placeFood
    by_cases h : onSnake snake (random 0 COLS (rng pos)) (random 0 ROWS (rng (pos + 1))) = true
    · have hmem : sample rng pos ∈ snake := (onSnake_iff _ _ _).1 h
      simp only [h, if_true]
      rw [ih]
      constructor
      · rintro ⟨k, hk, hall, hfree, hf, hp⟩
        refine ⟨k + 1, by omega, ?_, ?_, ?_, ?_⟩
        · intro j hj
          cases j with
          | zero => simpa using hmem
          | succ j =>
            have := hall j (by omega)
            rwa [show pos + 2 * (j + 1) = pos + 2 + 2 * j by ring]
        · rwa [show pos + 2 * (k + 1) = pos + 2 + 2 * k by ring]
        · rw [show pos + 2 * (k + 1) = pos + 2 + 2 * k by ring]; exact hf
        · omega
      · rintro ⟨k, hk, hall, hfree, hf, hp⟩
        cases k with
        | zero => exact absurd (by simpa using hmem) hfree
        | succ k =>
          refine ⟨k, by omega, ?_, ?_, ?_, ?_⟩
          · intro j hj
            have := hall (j + 1) (by omega)
            rwa [show pos + 2 * (j + 1) = pos + 2 + 2 * j by ring] at this
          · rwa [show pos + 2 * (k + 1) = pos + 2 + 2 * k by ring] at hfree
          · rw [show pos + 2 * (k + 1) = pos + 2 + 2 * k by ring] at hf; exact hf
          · omega
    · have hmem : sample rng pos ∉ snake := fun hm => h ((onSnake_iff _ _ _).2 hm)
      simp only [h, if_false, Bool.false_eq_true]
      constructor
      · intro heq
        simp only [Option.some.injEq, Prod.mk.injEq] at heq
        refine ⟨0, by omega, by intro j hj; omega, by simpa using hmem, ?_, by omega⟩
        simpa [sample] using heq.1.symm
      · rintro ⟨k, hk, hall, hfree, hf, hp⟩
        cases k with
        | zero =>
          simp only [Option.some.injEq, Prod.mk.injEq]
          exact ⟨by simpa [sample] using hf.symm, by omega⟩
        | succ k => exact absurd (by simpa using hall 0 (by omega)) hmem

/-- Totality of the rejection loop: it returns as soon as one of the first `fuel`
iterations samples a cell off the snake. -/
theorem placeFood_returns (rng : Nat → Nat) (snake : List Point) (fuel pos : Nat)
    (h : ∃ k, k < fuel ∧ sample rng (pos + 2 * k) ∉ snake) :
    ∃ r, placeFood rng snake fuel pos = some r := by
  induction fuel generalizing pos with
  | zero => obtain ⟨k, hk, _⟩ := h; omega
  | succ n ih =>
    unfold placeFood
    by_cases hon : onSnake snake (random 0 COLS (rng pos)) (random 0 ROWS (rng (pos + 1))) = true
    · simp only [hon, if_true]
      obtain ⟨k, hk, hfree⟩ := h
      cases k with
      | zero => exact absurd ((onSnake_iff _ _ _).1 hon) (by simpa [sample] using hfree)
      | succ k =>
        apply ih
        refine ⟨k, by omega, ?_⟩
        rwa [show pos + 2 * (k + 1) = pos + 2 + 2 * k by ring] at hfree
    · simp only [hon, if_false, Bool.false_eq_true]
      exact ⟨_, rfl⟩

theorem placeFood_not_mem (rng : Nat → Nat) (snake : List Point) (fuel pos : Nat)
    (f : Point) (pos1 : Nat) (h : placeFood rng snake fuel pos = some (f, pos1)) :
    f ∉ snake := by
  obtain ⟨k, _, _, hfree, hf, _⟩ := (placeFood_eq_some_iff rng snake fuel pos f pos1).1 h
  rw [hf]; exact hfree

/-- A tick whose candidate head lies on the snake only raises `gameOver`. -/
theorem tick_collision (rng : Nat → Nat) (fuel : Nat) (g : Game) (head : Point)
    (rest : List Point) (hs : g.snake = head :: rest)
    (hhit : newHead head g.dirX g.dirY ∈ g.snake) :
    tick rng fuel g = some { g with gameOver := true } := by
  have hon := (onSnake_point g.snake (newHead head g.dirX g.dirY)).2 hhit
  unfold tick
  rw [hs] at hon ⊢
  simp only [hon, if_true]

/-- A tick onto a free cell other than the food prepends the head and pops the tail. -/
theorem tick_move (rng : Nat → Nat) (fuel : Nat) (g : Game) (head : Point)
    (rest : List Point) (hs : g.snake = head :: rest)
    (hfree : newHead head g.dirX g.dirY ∉ g.snake)
    (hne : newHead head g.dirX g.dirY ≠ g.food) :
    tick rng fuel g =
      some { g with snake := (newHead head g.dirX g.dirY :: g.snake).dropLast } := by
  have hon : ¬ onSnake g.snake (newHead head g.dirX g.dirY).x (newHead head g.dirX g.dirY).y
      = true := fun h => hfree ((onSnake_point _ _).1 h)
  have hfood : ¬ ((newHead head g.dirX g.dirY).x = g.food.x ∧
      (newHead head g.dirX g.dirY).y = g.food.y) := by
    rintro ⟨hx, hy⟩
    apply hne
    cases hn : newHead head g.dirX g.dirY
    cases hf : g.food
    simp_all
  unfold tick
  rw [hs] at hon ⊢
  simp only [hon, hfood, if_false, Bool.false_eq_true]

/-- A tick onto the food prepends the head and re-places the food on the grown snake. -/
theorem tick_eat (rng : Nat → Nat) (fuel : Nat) (g : Game) (head : Point)
    (rest : List Point) (hs : g.snake = head :: rest)
    (hfree : newHead head g.dirX g.dirY ∉ g.snake)
    (heq : newHead head g.dirX g.dirY = g.food) :
    tick rng fuel g =
      (placeFood rng (newHead head g.dirX g.dirY :: g.snake) fuel g.seed).map
        (fun r => { g with snake := newHead head g.dirX g.dirY :: g.snake,
                           food := r.1, seed := r.2 }) := by
  have hon : ¬ onSnake g.snake (newHead head g.dirX g.dirY).x (newHead head g.dirX g.dirY).y
      = true := fun h => hfree ((onSnake_point _ _).1 h)
  have hfood : (newHead head g.dirX g.dirY).x = g.food.x ∧
      (newHead head g.dirX g.dirY).y = g.food.y := by rw [heq]; exact ⟨rfl, rfl⟩
  unfold tick
  rw [hs] at hon ⊢
  simp only [hon, if_false, Bool.false_eq_true]
  rw [if_pos hfood]
  cases placeFood rng (newHead head g.dirX g.dirY :: head :: rest) fuel g.seed with
  | none => rfl
  | some r => rfl

/-- Totality of the tick: on a non-empty snake it returns unless it has to place food and
none of the first `fuel` samples is off the grown snake. -/
theorem tick_returns (rng : Nat → Nat) (fuel : Nat) (g : Game) (head : Point)
    (rest : List Point) (hs : g.snake = head :: rest)
    (h : newHead head g.dirX g.dirY ≠ g.food ∨
      ∃ k, k < fuel ∧ sample rng (g.seed + 2 * k) ∉ newHead head g.dirX g.dirY :: g.snake) :
    ∃ g1, tick rng fuel g = some g1 := by
  by_cases hhit : newHead head g.dirX g.dirY ∈ g.snake
  · exact ⟨_, tick_collision rng fuel g head rest hs hhit⟩
  · by_cases heq : newHead head g.dirX g.dirY = g.food
    · rcases h with h | h
      · exact absurd heq h
      · obtain ⟨r, hr⟩ := placeFood_returns rng _ fuel g.seed h
        rw [tick_eat rng fuel g head rest hs hhit heq, hr]
        exact ⟨_, rfl⟩
    · exact ⟨_, tick_move rng fuel g head rest hs hhit heq⟩

/-! ## Claims about the game tick -/

/-- C1. Snake invariant of one tick: from a running state whose snake has no duplicate
cells, every tick that returns without raising `gameOver` leaves a snake without duplicate
cells whose length is the old length or the old length plus one; and the tick does return
on a non-empty snake unless it must place food and no sample within `fuel` is free. -/
theorem tick_keeps_nodup (rng : Nat → Nat) (fuel : Nat) (g : Game)
    (_hrun : g.gameOver = false) (hnd : g.snake.Nodup) :
    (∀ g1, tick rng fuel g = some g1 → g1.gameOver = false →
      g1.snake.Nodup ∧
        (g1.snake.length = g.snake.length ∨ g1.snake.length = g.snake.length + 1)) ∧
    (∀ head rest, g.snake = head :: rest →
      (newHead head g.dirX g.dirY ≠ g.food ∨
        ∃ k, k < fuel ∧ sample rng (g.seed + 2 * k) ∉ newHead head g.dirX g.dirY :: g.snake) →
      ∃ g1, tick rng fuel g = some g1) := by
  refine ⟨?_, fun head rest hs h => tick_returns rng fuel g head rest hs h⟩
  intro g1 htick hterm
  cases hs : g.snake with
  | nil => simp [tick, hs] at htick
  | cons head rest =>
    by_cases hhit : newHead head g.dirX g.dirY ∈ g.snake
    · rw [tick_collision rng fuel g head rest hs hhit, Option.some.injEq] at htick
      rw [← htick] at hterm
      simp at hterm
    · have hcons : (newHead head g.dirX g.dirY :: g.snake).Nodup := List.nodup_cons.2 ⟨hhit, hnd⟩
      by_cases heq : newHead head g.dirX g.dirY = g.food
      · rw [tick_eat rng fuel g head rest hs hhit heq] at htick
        cases hp : placeFood rng (newHead head g.dirX g.dirY :: g.snake) fuel g.seed with
        | none => rw [hp] at htick; simp at htick
        | some r =>
          rw [hp, Option.map_some', Option.some.injEq] at htick
          rw [← htick, ← hs]
          exact ⟨hcons, Or.inr (by simp)⟩
      · rw [tick_move rng fuel g head rest hs hhit heq, Option.some.injEq] at htick
        rw [← htick, ← hs]
        refine ⟨hcons.sublist (List.dropLast_sublist _), Or.inl ?_⟩
        simp [List.length_dropLast]

/-- Instance of C1 at the reset snake with the food one step ahead: the tick eats and the
four-cell result has no duplicate cells. -/
theorem tick_keeps_nodup_witness :
    (centred ⟨13, 16⟩).gameOver = false ∧ (centred ⟨13, 16⟩).snake.Nodup ∧
    tick zeroRng 1 (centred ⟨13, 16⟩) =
      some { centred ⟨0, 0⟩ with
        snake := [⟨13, 16⟩, ⟨12, 16⟩, ⟨11, 16⟩, ⟨10, 16⟩], seed := 2 } ∧
    ([⟨13, 16⟩, ⟨12, 16⟩, ⟨11, 16⟩, ⟨10, 16⟩] : List Point).Nodup ∧
    ((4 : Nat) = (centred ⟨13, 16⟩).snake.length ∨ (4 : Nat) = (centred ⟨13, 16⟩).snake.length + 1) :=
  ⟨by decide, by decide, by decide,
    (tick_keeps_nodup zeroRng 1 (centred ⟨13, 16⟩) (by decide) (by decide)).1
      { centred ⟨0, 0⟩ with snake := [⟨13, 16⟩, ⟨12, 16⟩, ⟨11, 16⟩, ⟨10, 16⟩], seed := 2 }
      (by decide) (by decide)⟩

/-- C2. Self-collision: when the snake has at least three cells and the wrapped candidate
head equals its second or a later cell, the tick returns with `gameOver` set and with the
snake, the food and the heading exactly as before. -/
theorem tick_selfCollision (rng : Nat → Nat) (fuel : Nat) (g : Game) (head : Point)
    (rest : List Point) (hs : g.snake = head :: rest) (_hlen : 3 ≤ g.snake.length)
    (hhit : newHead head g.dirX g.dirY ∈ rest) :
    ∃ g1, tick rng fuel g = some g1 ∧ g1.gameOver = true ∧ g1.snake = g.snake ∧
      g1.food = g.food ∧ g1.dirX = g.dirX ∧ g1.dirY = g.dirY :=
  ⟨{ g with gameOver := true },
    tick_collision rng fuel g head rest hs (by rw [hs]; exact List.mem_cons_of_mem _ hhit),
    rfl, rfl, rfl, rfl, rfl⟩

/-- Instance of C2 at the `coiled` snake: the tick only raises `gameOver`. -/
theorem tick_selfCollision_witness :
    ∃ g1, tick zeroRng 0 coiled = some g1 ∧ g1.gameOver = true ∧ g1.snake = coiled.snake ∧
      g1.food = coiled.food ∧ g1.dirX = coiled.dirX ∧ g1.dirY = coiled.dirY :=
  tick_selfCollision zeroRng 0 coiled ⟨5, 5⟩ [⟨5, 6⟩, ⟨6, 6⟩, ⟨6, 5⟩, ⟨7, 5⟩] (by decide)
    (by decide) (by decide)

/-- C3. Wrap-around on the four edges.  The candidate head leaves column `COLS - 1` for
column `0`, column `0` for column `COLS - 1`, row `ROWS - 1` for row `0` and row `0` for row
`ROWS - 1`, keeping the other coordinate of a head that is a grid cell.  When the
candidate is not on the snake, a tick that returns is not terminal and has the candidate
as new head, and it returns unless food must be placed and no sample within `fuel` is
free.  From `[(0,16),(1,16),(2,16)]` with heading `(-1,0)` the new head is `(23,16)`. -/
theorem tick_wrapAround :
    (∀ head : Point, head.x = COLS - 1 →
      (newHead head 1 0).x = 0 ∧
        (0 ≤ head.y → head.y < ROWS → (newHead head 1 0).y = head.y)) ∧
    (∀ head : Point, head.x = 0 →
      (newHead head (-1) 0).x = COLS - 1 ∧
        (0 ≤ head.y → head.y < ROWS → (newHead head (-1) 0).y = head.y)) ∧
    (∀ head : Point, head.y = ROWS - 1 →
      (newHead head 0 1).y = 0 ∧
        (0 ≤ head.x → head.x < COLS → (newHead head 0 1).x = head.x)) ∧
    (∀ head : Point, head.y = 0 →
      (newHead head 0 (-1)).y = ROWS - 1 ∧
        (0 ≤ head.x → head.x < COLS → (newHead head 0 (-1)).x = head.x)) ∧
    (∀ (rng : Nat → Nat) (fuel : Nat) (g : Game) (head : Point) (rest : List Point),
      g.gameOver = false → g.snake = head :: rest →
      newHead head g.dirX g.dirY ∉ g.snake →
      (∀ g1, tick rng fuel g = some g1 →
        g1.gameOver = false ∧ g1.snake.head? = some (newHead head g.dirX g.dirY)) ∧
      ((newHead head g.dirX g.dirY ≠ g.food ∨
          ∃ k, k < fuel ∧
            sample rng (g.seed + 2 * k) ∉ newHead head g.dirX g.dirY :: g.snake) →
        ∃ g1, tick rng fuel g = some g1)) ∧
    (∀ (rng : Nat → Nat) (fuel : Nat) (g : Game),
      g.gameOver = false → g.snake = [⟨0, 16⟩, ⟨1, 16⟩, ⟨2, 16⟩] →
      g.dirX = -1 → g.dirY = 0 →
      (g.food ≠ ⟨23, 16⟩ ∨
        ∃ k, k < fuel ∧ sample rng (g.seed + 2 * k) ∉ (⟨23, 16⟩ : Point) :: g.snake) →
      ∃ g1, tick rng fuel g = some g1 ∧ g1.gameOver = false ∧
        g1.snake.head? = some ⟨23, 16⟩) := by
  have hgen : ∀ (rng : Nat → Nat) (fuel : Nat) (g : Game) (head : Point) (rest : List Point),
      g.gameOver = false → g.snake = head :: rest →
      newHead head g.dirX g.dirY ∉ g.snake →
      ∀ g1, tick rng fuel g = some g1 →
        g1.gameOver = false ∧ g1.snake.head? = some (newHead head g.dirX g.dirY) := by
    intro rng fuel g head rest hrun hs hfree g1 htick
    by_cases heq : newHead head g.dirX g.dirY = g.food
    · rw [tick_eat rng fuel g head rest hs hfree heq] at htick
      cases hp : placeFood rng (newHead head g.dirX g.dirY :: g.snake) fuel g.seed with
      | none => rw [hp] at htick; simp at htick
      | some r =>
        rw [hp, Option.map_some', Option.some.injEq] at htick
        rw [← htick]
        exact ⟨hrun, rfl⟩
    · rw [tick_move rng fuel g head rest hs hfree heq, Option.some.injEq] at htick
      rw [← htick, hs]
      exact ⟨hrun, rfl⟩
  refine ⟨?_, ?_, ?_, ?_, ?_, ?_⟩
  · intro head hx
    simp only [newHead, COLS_eq, ROWS_eq] at hx ⊢
    refine ⟨?_, fun h0 h1 => ?_⟩ <;> split_ifs <;> omega
  · intro head hx
    simp only [newHead, COLS_eq, ROWS_eq] at hx ⊢
    refine ⟨?_, fun h0 h1 => ?_⟩ <;> split_ifs <;> omega
  · intro head hy
    simp only [newHead, COLS_eq, ROWS_eq] at hy ⊢
    refine ⟨?_, fun h0 h1 => ?_⟩ <;> split_ifs <;> omega
  · intro head hy
    simp only [newHead, COLS_eq, ROWS_eq] at hy ⊢
    refine ⟨?_, fun h0 h1 => ?_⟩ <;> split_ifs <;> omega
  · intro rng fuel g head rest hrun hs hfree
    exact ⟨hgen rng fuel g head rest hrun hs hfree,
      fun h => tick_returns rng fuel g head rest hs h⟩
  · intro rng fuel g hrun hs hdx hdy hfood
    have hnh : newHead ⟨0, 16⟩ g.dirX g.dirY = ⟨23, 16⟩ := by rw [hdx, hdy]; decide
    have hfree : newHead ⟨0, 16⟩ g.dirX g.dirY ∉ g.snake := by rw [hnh, hs]; decide
    obtain ⟨g1, h1⟩ := tick_returns rng fuel g ⟨0, 16⟩ _ hs (by
      rw [hnh]
      rcases hfood with h | h
      · exact Or.inl (fun e => h e.symm)
      · exact Or.inr h)
    have := hgen rng fuel g ⟨0, 16⟩ _ hrun hs hfree g1 h1
    rw [hnh] at this
    exact ⟨g1, h1, this⟩

/-- Instance of C3 at `leftEdge`: the head wraps from column `0` to `(23,16)`. -/
theorem tick_wrapAround_witness :
    ∃ g1, tick zeroRng 0 leftEdge = some g1 ∧ g1.gameOver = false ∧
      g1.snake.head? = some ⟨23, 16⟩ :=
  tick_wrapAround.2.2.2.2.2 zeroRng 0 leftEdge (by decide) (by decide) (by decide)
    (by decide) (Or.inl (by decide))

/-- C4 as stated fails: with the food one step ahead at `(13,16)` the tick eats it, so the
snake keeps its tail; no generator stream and no fuel yields the three-cell snake
`[(13,16),(12,16),(11,16)]`, and with every sample at `(0,0)` the tick returns the
four-cell snake `[(13,16),(12,16),(11,16),(10,16)]`. -/
theorem tick_foodAhead_keeps_tail :
    Option.map Game.snake (tick zeroRng 1 (centred ⟨13, 16⟩)) =
        some [⟨13, 16⟩, ⟨12, 16⟩, ⟨11, 16⟩, ⟨10, 16⟩] ∧
    Option.map Game.snake (tick zeroRng 1 (centred ⟨13, 16⟩)) ≠
        some [⟨13, 16⟩, ⟨12, 16⟩, ⟨11, 16⟩] ∧
    ¬ ∃ (rng : Nat → Nat) (fuel : Nat) (g1 : Game),
        tick rng fuel (centred ⟨13, 16⟩) = some g1 ∧
          g1.snake = [⟨13, 16⟩, ⟨12, 16⟩, ⟨11, 16⟩] := by
  refine ⟨by decide, by decide, ?_⟩
  rintro ⟨rng, fuel, g1, htick, hsn⟩
  have hfree : newHead ⟨12, 16⟩ (centred ⟨13, 16⟩).dirX (centred ⟨13, 16⟩).dirY ∉
      (centred ⟨13, 16⟩).snake := by decide
  rw [tick_eat rng fuel (centred ⟨13, 16⟩) ⟨12, 16⟩ [⟨11, 16⟩, ⟨10, 16⟩] rfl hfree
    (by decide)] at htick
  cases hp : placeFood rng
      (newHead ⟨12, 16⟩ (centred ⟨13, 16⟩).dirX (centred ⟨13, 16⟩).dirY ::
        (centred ⟨13, 16⟩).snake) fuel (centred ⟨13, 16⟩).seed with
  | none => rw [hp] at htick; simp at htick
  | some r =>
    rw [hp, Option.map_some', Option.some.injEq] at htick
    rw [← htick] at hsn
    have hl := congrArg List.length hsn
    simp [centred, boot] at hl

/-- C4, amended.  From snake `[(12,16),(11,16),(10,16)]` with heading `(1,0)`: when the food
is at `(13,16)` every tick that returns yields `[(13,16),(12,16),(11,16),(10,16)]` (the
tail is retained), is not terminal and has new food off the snake, and the tick returns
once a sample within `fuel` is free; when the food is at any other cell the tick yields
`[(13,16),(12,16),(11,16)]` (the tail `(10,16)` is removed) and is not terminal. -/
theorem tick_centred_scenario (rng : Nat → Nat) (fuel : Nat) (g : Game)
    (hrun : g.gameOver = false) (hs : g.snake = [⟨12, 16⟩, ⟨11, 16⟩, ⟨10, 16⟩])
    (hdx : g.dirX = 1) (hdy : g.dirY = 0) :
    (g.food = ⟨13, 16⟩ →
      (∀ g1, tick rng fuel g = some g1 →
        g1.snake = [⟨13, 16⟩, ⟨12, 16⟩, ⟨11, 16⟩, ⟨10, 16⟩] ∧ g1.gameOver = false ∧
          g1.food ∉ g1.snake) ∧
      ((∃ k, k < fuel ∧ sample rng (g.seed + 2 * k) ∉
          ([⟨13, 16⟩, ⟨12, 16⟩, ⟨11, 16⟩, ⟨10, 16⟩] : List Point)) →
        ∃ g1, tick rng fuel g = some g1)) ∧
    (g.food ≠ ⟨13, 16⟩ →
      ∃ g1, tick rng fuel g = some g1 ∧
        g1.snake = [⟨13, 16⟩, ⟨12, 16⟩, ⟨11, 16⟩] ∧ g1.gameOver = false) := by
  have hnh : newHead ⟨12, 16⟩ g.dirX g.dirY = ⟨13, 16⟩ := by rw [hdx, hdy]; decide
  have hfree : newHead ⟨12, 16⟩ g.dirX g.dirY ∉ g.snake := by rw [hnh, hs]; decide
  refine ⟨fun hfood => ⟨?_, ?_⟩, fun hfood => ?_⟩
  · intro g1 htick
    rw [tick_eat rng fuel g ⟨12, 16⟩ _ hs hfree (by rw [hnh, hfood])] at htick
    cases hp : placeFood rng (newHead ⟨12, 16⟩ g.dirX g.dirY :: g.snake) fuel g.seed with
    | none => rw [hp] at htick; simp at htick
    | some r =>
      obtain ⟨f, pos1⟩ := r
      have hnot := placeFood_not_mem rng _ fuel g.seed f pos1 hp
      rw [hp, Option.map_some', Option.some.injEq] at htick
      rw [← htick]
      refine ⟨by simp only [hnh, hs], hrun, hnot⟩
  · intro h
    apply tick_returns rng fuel g ⟨12, 16⟩ _ hs
    right
    rw [hnh, hs]
    exact h
  · refine ⟨_, tick_move rng fuel g ⟨12, 16⟩ _ hs hfree (by rw [hnh]; exact fun e => hfood e.symm),
      ?_, hrun⟩
    simp only [hnh, hs]
    rfl

/-- Instance of the amended C4 with every sample at the free cell `(0,0)`. -/
theorem tick_centred_scenario_witness :
    (∀ g1, tick zeroRng 1 (centred ⟨13, 16⟩) = some g1 →
        g1.snake = [⟨13, 16⟩, ⟨12, 16⟩, ⟨11, 16⟩, ⟨10, 16⟩] ∧ g1.gameOver = false ∧
          g1.food ∉ g1.snake) ∧
    (∃ g1, tick zeroRng 1 (centred ⟨13, 16⟩) = some g1) :=
  ⟨((tick_centred_scenario zeroRng 1 (centred ⟨13, 16⟩) (by decide) (by decide) (by decide)
      (by decide)).1 (by decide)).1,
   ((tick_centred_scenario zeroRng 1 (centred ⟨13, 16⟩) (by decide) (by decide) (by decide)
      (by decide)).1 (by decide)).2 ⟨0, by decide, by decide⟩⟩

/-! ## Claims about food placement -/

/-- C5. Food placement.  `placeFood` returns `f` exactly when some iteration within `fuel`
is the first whose sampled cell is off the snake, and `f` is that cell; the cell it
returns has `0 ≤ x < COLS`, `0 ≤ y < ROWS` and is no cell of the snake; and after a tick
that ate food the new food is no cell of the grown snake, the new head included. -/
theorem placeFood_first_free (rng : Nat → Nat) :
    (∀ (snake : List Point) (fuel pos : Nat) (f : Point) (pos1 : Nat),
      placeFood rng snake fuel pos = some (f, pos1) ↔
        ∃ k, k < fuel ∧ (∀ j, j < k → sample rng (pos + 2 * j) ∈ snake) ∧
          sample rng (pos + 2 * k) ∉ snake ∧ f = sample rng (pos + 2 * k) ∧
          pos1 = pos + 2 * k + 2) ∧
    (∀ (snake : List Point) (fuel pos : Nat) (f : Point) (pos1 : Nat),
      placeFood rng snake fuel pos = some (f, pos1) →
        (0 ≤ f.x ∧ f.x < COLS ∧ 0 ≤ f.y ∧ f.y < ROWS) ∧ ∀ p ∈ snake, f ≠ p) ∧
    (∀ (fuel : Nat) (g g1 : Game) (head : Point) (rest : List Point),
      g.snake = head :: rest → newHead head g.dirX g.dirY ∉ g.snake →
      newHead head g.dirX g.dirY = g.food → tick rng fuel g = some g1 →
        g1.snake = newHead head g.dirX g.dirY :: g.snake ∧
          g1.food ≠ newHead head g.dirX g.dirY ∧ ∀ p ∈ g1.snake, g1.food ≠ p) := by
  refine ⟨fun snake fuel pos f pos1 => placeFood_eq_some_iff rng snake fuel pos f pos1, ?_, ?_⟩
  · intro snake fuel pos f pos1 h
    obtain ⟨k, _, _, hfree, hf, _⟩ := (placeFood_eq_some_iff rng snake fuel pos f pos1).1 h
    refine ⟨by rw [hf]; exact sample_inGrid rng _, fun p hp e => ?_⟩
    rw [hf] at e
    exact hfree (e ▸ hp)
  · intro fuel g g1 head rest hs hfree heq htick
    rw [tick_eat rng fuel g head rest hs hfree heq] at htick
    cases hp : placeFood rng (newHead head g.dirX g.dirY :: g.snake) fuel g.seed with
    | none => rw [hp] at htick; simp at htick
    | some r =>
      obtain ⟨f, pos1⟩ := r
      have hnot := placeFood_not_mem rng _ fuel g.seed f pos1 hp
      rw [hp, Option.map_some', Option.some.injEq] at htick
      rw [← htick]
      refine ⟨rfl, fun e => hnot ?_, fun p hp e => hnot ?_⟩
      · simp only at e
        rw [e]
        exact List.mem_cons_self _ _
      · simp only at e hp
        rw [e]
        exact hp

/-- Instance of C5: the first sample `(12,16)` is on the snake, the second `(5,7)` is the food. -/
theorem placeFood_first_free_witness :
    placeFood (listRng [12, 16, 5, 7]) [⟨12, 16⟩, ⟨11, 16⟩, ⟨10, 16⟩] 2 0 = some (⟨5, 7⟩, 4) ∧
    ((0 ≤ (5 : Int) ∧ (5 : Int) < COLS ∧ 0 ≤ (7 : Int) ∧ (7 : Int) < ROWS) ∧
      ∀ p ∈ ([⟨12, 16⟩, ⟨11, 16⟩, ⟨10, 16⟩] : List Point), (⟨5, 7⟩ : Point) ≠ p) :=
  ⟨by decide,
    (placeFood_first_free (listRng [12, 16, 5, 7])).2.1 [⟨12, 16⟩, ⟨11, 16⟩, ⟨10, 16⟩] 2 0
      ⟨5, 7⟩ 4 (by decide)⟩

/-! ## Claims about the direction controller -/

theorem abs_eq (v : Int) : abs v = |v| := by
  unfold abs
  split_ifs with h
  · exact (abs_of_pos h).symm
  · exact (abs_of_nonpos (not_lt.1 h)).symm

/-- One heading update from a unit heading yields a unit heading that is not the reverse. -/
theorem steer_unit (x y : Int) (g : Game) (hu : isUnit g.dirX g.dirY) :
    isUnit (steer x y g).dirX (steer x y g).dirY ∧
      ((steer x y g).dirX, (steer x y g).dirY) ≠ (-g.dirX, -g.dirY) := by
  unfold isUnit at hu ⊢
  unfold steer
  simp only []
  split_ifs <;> refine ⟨?_, ?_⟩ <;>
    first
    | exact hu
    | decide
    | (simp only [ne_eq, Prod.mk.injEq]; intro hc; omega)
    | simp

theorem readControls_unit (t : Option TS_Point) (g : Game) (hu : isUnit g.dirX g.dirY) :
    isUnit (readControls t g).dirX (readControls t g).dirY ∧
      ((readControls t g).dirX, (readControls t g).dirY) ≠ (-g.dirX, -g.dirY) := by
  cases t with
  | none =>
    refine ⟨hu, ?_⟩
    unfold isUnit at hu
    simp only [readControls, ne_eq, Prod.mk.injEq]
    omega
  | some p => exact steer_unit _ _ g hu

/-- C6. Heading invariant of the direction controller.  From a heading that is one of the
four unit vectors, the heading after one heading update, for every mapped touch point and
for every call of `readControls`, is not the negation of the heading before it; and along
every sequence of `readControls` calls no heading is the negation of its predecessor. -/
theorem steer_never_reverses (g : Game) (hu : isUnit g.dirX g.dirY) :
    (∀ x y : Int, ((steer x y g).dirX, (steer x y g).dirY) ≠ (-g.dirX, -g.dirY)) ∧
    (∀ t : Option TS_Point,
      ((readControls t g).dirX, (readControls t g).dirY) ≠ (-g.dirX, -g.dirY)) ∧
    (∀ ts : List (Option TS_Point),
      List.Chain' (fun a b => b ≠ (-a.1, -a.2)) (headingTrace ts g)) := by
  refine ⟨fun x y => (steer_unit x y g hu).2, fun t => (readControls_unit t g hu).2, ?_⟩
  intro ts
  induction ts generalizing g with
  | nil => simp [headingTrace]
  | cons t rest ih =>
    have h1 := readControls_unit t g hu
    have h2 := ih (readControls t g) h1.1
    cases rest with
    | nil =>
      simp only [headingTrace, List.chain'_cons, List.chain'_singleton, and_true]
      exact h1.2
    | cons t2 rest2 =>
      simp only [headingTrace, List.chain'_cons] at h2 ⊢
      exact ⟨h1.2, h2⟩

/-- Instance of C6 along a touch above the centre, a pass without touch and a touch to the left. -/
theorem steer_never_reverses_witness :
    List.Chain' (fun (a b : Int × Int) => b ≠ (-a.1, -a.2))
      (headingTrace [some ⟨2050, 200⟩, none, some ⟨200, 2050⟩] (centred ⟨5, 5⟩)) :=
  (steer_never_reverses (centred ⟨5, 5⟩) (by decide)).2.2
    [some ⟨2050, 200⟩, none, some ⟨200, 2050⟩]

/-- C8. Direction policy of `readControls`, with `dx = x - SCREEN_W/2` and
`dy = y - SCREEN_H/2`.  If `|dx| > |dy|` the heading becomes `(-1,0)` for `dx < 0` and
`(1,0)` for `dx > 0` when `dirX == 0`, and nothing changes when `dirX != 0`; if
`|dx| ≤ |dy|` the heading becomes `(0,-1)` for `dy < 0` and `(0,1)` for `dy > 0` when
`dirY == 0`, and nothing changes when `dirY != 0`; a touch at the centre changes nothing;
and `readControls` applies this update to the mapped point of a touch. -/
theorem steer_policy (x y : Int) (g : Game) :
    (|x - SCREEN_W / 2| > |y - SCREEN_H / 2| →
      (g.dirX = 0 → x - SCREEN_W / 2 < 0 → steer x y g = { g with dirX := -1, dirY := 0 }) ∧
      (g.dirX = 0 → x - SCREEN_W / 2 > 0 → steer x y g = { g with dirX := 1, dirY := 0 }) ∧
      (g.dirX ≠ 0 → steer x y g = g)) ∧
    (|x - SCREEN_W / 2| ≤ |y - SCREEN_H / 2| →
      (g.dirY = 0 → y - SCREEN_H / 2 < 0 → steer x y g = { g with dirX := 0, dirY := -1 }) ∧
      (g.dirY = 0 → y - SCREEN_H / 2 > 0 → steer x y g = { g with dirX := 0, dirY := 1 }) ∧
      (g.dirY ≠ 0 → steer x y g = g)) ∧
    (x - SCREEN_W / 2 = 0 → y - SCREEN_H / 2 = 0 → steer x y g = g) ∧
    (∀ p : TS_Point,
      readControls (some p) g = steer (mapToScreen p g).x (mapToScreen p g).y g) := by
  have hw : Int.tdiv SCREEN_W 2 = SCREEN_W / 2 := by decide
  have hh : Int.tdiv SCREEN_H 2 = SCREEN_H / 2 := by decide
  unfold steer
  simp only [abs_eq, hw, hh]
  refine ⟨fun h => ⟨fun h0 hlt => ?_, fun h0 hgt => ?_, fun h0 => ?_⟩,
    fun h => ⟨fun h0 hlt => ?_, fun h0 hgt => ?_, fun h0 => ?_⟩, fun hx hy => ?_, fun p => ?_⟩
  · rw [if_pos h, if_pos ⟨hlt, h0⟩]
  · rw [if_pos h, if_neg (fun c => by omega), if_pos ⟨hgt, h0⟩]
  · rw [if_pos h, if_neg (fun c => h0 c.2), if_neg (fun c => h0 c.2)]
  · rw [if_neg (not_lt.2 h), if_pos ⟨hlt, h0⟩]
  · rw [if_neg (not_lt.2 h), if_neg (fun c => by omega), if_pos ⟨hgt, h0⟩]
  · rw [if_neg (not_lt.2 h), if_neg (fun c => h0 c.2), if_neg (fun c => h0 c.2)]
  · rw [hx, hy]
    simp
  · simp only [readControls, steer, abs_eq, hw, hh]

/-- Instances of C8: a horizontal touch while heading right, a touch above the centre, and
a touch at the centre. -/
theorem steer_policy_witness :
    steer 10 150 (centred ⟨5, 5⟩) = centred ⟨5, 5⟩ ∧
    steer 120 10 (centred ⟨5, 5⟩) = { centred ⟨5, 5⟩ with dirX := 0, dirY := -1 } ∧
    steer 120 160 (centred ⟨5, 5⟩) = centred ⟨5, 5⟩ :=
  ⟨(steer_policy 10 150 (centred ⟨5, 5⟩)).1 (by decide) |>.2.2 (by decide),
   (steer_policy 120 10 (centred ⟨5, 5⟩)).2.1 (by decide) |>.1 (by decide) (by decide),
   (steer_policy 120 160 (centred ⟨5, 5⟩)).2.2.1 (by decide) (by decide)⟩

/-- C7, evaluation of the code on `doubleTurn`.  The first pass ticks with heading `(1,0)`;
the second pass turns the heading to `(0,-1)` without a tick (90 ms elapsed); the third
pass turns it to `(-1,0)` and ticks (180 ms elapsed): the heading applied by this tick is
the negation of the heading applied by the preceding tick, the candidate head `(12,16)` is
the second cell of the snake, and the game ends by self-collision. -/
theorem loop_doubleTurn_reverses :
    loop zeroRng 0 ⟨none, 150⟩ (centred ⟨5, 5⟩) =
      some { centred ⟨5, 5⟩ with snake := [⟨13, 16⟩, ⟨12, 16⟩, ⟨11, 16⟩], lastMove := 150 } ∧
    loop zeroRng 0 ⟨some ⟨2050, 200⟩, 240⟩
        { centred ⟨5, 5⟩ with snake := [⟨13, 16⟩, ⟨12, 16⟩, ⟨11, 16⟩], lastMove := 150 } =
      some { centred ⟨5, 5⟩ with snake := [⟨13, 16⟩, ⟨12, 16⟩, ⟨11, 16⟩], lastMove := 150,
                                 dirX := 0, dirY := -1 } ∧
    loop zeroRng 0 ⟨some ⟨200, 2050⟩, 330⟩
        { centred ⟨5, 5⟩ with snake := [⟨13, 16⟩, ⟨12, 16⟩, ⟨11, 16⟩], lastMove := 150,
                              dirX := 0, dirY := -1 } =
      some { centred ⟨5, 5⟩ with snake := [⟨13, 16⟩, ⟨12, 16⟩, ⟨11, 16⟩], lastMove := 330,
                                 dirX := -1, dirY := 0, gameOver := true } ∧
    newHead ⟨13, 16⟩ (-1) 0 = ⟨12, 16⟩ ∧
    run zeroRng 0 doubleTurn (centred ⟨5, 5⟩) =
      some { centred ⟨5, 5⟩ with snake := [⟨13, 16⟩, ⟨12, 16⟩, ⟨11, 16⟩], lastMove := 330,
                                 dirX := -1, dirY := 0, gameOver := true } := by
  refine ⟨by decide, by decide, by decide, by decide, by decide⟩

/-! ## Claims about calibration and coordinate mapping -/

theorem wrap32_of_range (v : Int) (h0 : -2147483648 ≤ v) (h1 : v < 2147483648) :
    wrap32 v = v := by
  unfold wrap32
  omega

/-- A raw value equal to the lower input bound maps to `0` or, on an empty range, to `-1`. -/
theorem map_lower (lo hi out : Int) : map lo lo hi 0 out = 0 ∨ map lo lo hi 0 out = -1 := by
  unfold map
  simp only []
  split_ifs with h
  · right; rfl
  · left
    have h0 : wrap32 (lo - lo) = 0 := by rw [sub_self]; decide
    rw [h0, zero_mul]
    have h1 : wrap32 0 = 0 := by decide
    rw [h1, Int.zero_tdiv, h1, zero_add, h1]

/-- C9, evaluation of the code.  The crosshair targets are `(20,20)`, `(220,20)`,
`(220,300)`, `(20,300)`, but for the corner samples `(300,300)`, `(3800,300)`,
`(3800,3800)`, `(300,3800)` the derived bounds map them to `(0,0)`, `(239,0)`,
`(239,319)`, `(0,319)`; and for no four corner samples at all does the mapping with the
derived bounds reproduce all four targets within one pixel. -/
theorem calibrateTouch_misses_corners :
    corners = [⟨20, 20⟩, ⟨220, 20⟩, ⟨220, 300⟩, ⟨20, 300⟩] ∧
    (List.map
        (fun c => mapToScreen c
          (calibrateTouch ⟨300, 300⟩ ⟨3800, 300⟩ ⟨3800, 3800⟩ ⟨300, 3800⟩ boot))
        [⟨300, 300⟩, ⟨3800, 300⟩, ⟨3800, 3800⟩, ⟨300, 3800⟩] =
      [⟨0, 0⟩, ⟨239, 0⟩, ⟨239, 319⟩, ⟨0, 319⟩]) ∧
    (∀ (c0 c1 c2 c3 : TS_Point) (g : Game),
      ¬ (reproduces c0 ⟨20, 20⟩ (calibrateTouch c0 c1 c2 c3 g) ∧
         reproduces c1 ⟨220, 20⟩ (calibrateTouch c0 c1 c2 c3 g) ∧
         reproduces c2 ⟨220, 300⟩ (calibrateTouch c0 c1 c2 c3 g) ∧
         reproduces c3 ⟨20, 300⟩ (calibrateTouch c0 c1 c2 c3 g))) := by
  refine ⟨by decide, by decide, ?_⟩
  rintro c0 c1 c2 c3 g ⟨h0, h1, h2, h3⟩
  simp only [reproduces, mapToScreen, calibrateTouch, abs_le] at h0 h1 h2 h3
  have hm := map_lower (min (min c0.x c3.x) (min c1.x c2.x))
    (max (max c0.x c3.x) (max c1.x c2.x)) (SCREEN_W - 1)
  have hcases : min (min c0.x c3.x) (min c1.x c2.x) = c0.x ∨
      min (min c0.x c3.x) (min c1.x c2.x) = c1.x ∨
      min (min c0.x c3.x) (min c1.x c2.x) = c2.x ∨
      min (min c0.x c3.x) (min c1.x c2.x) = c3.x := by
    omega
  generalize min (min c0.x c3.x) (min c1.x c2.x) = lo at h0 h1 h2 h3 hm hcases
  generalize max (max c0.x c3.x) (max c1.x c2.x) = hi at h0 h1 h2 h3 hm
  have hw : SCREEN_W - 1 = 239 := by decide
  rw [hw] at h0 h1 h2 h3 hm
  rcases hcases with e | e | e | e
  · rw [← e] at h0; omega
  · rw [← e] at h1; omega
  · rw [← e] at h2; omega
  · rw [← e] at h3; omega

/-- C10 as stated fails: no clamp is applied.  Under the default calibration
(`200 .. 3900` on both axes) the raw sample `(0, 4095)` maps to the point `(-12, 335)`,
left of column `0` and below row `SCREEN_H - 1 = 319`. -/
theorem mapToScreen_not_clamped :
    boot.TS_MINX < boot.TS_MAXX ∧ boot.TS_MINY < boot.TS_MAXY ∧
    mapToScreen ⟨0, 4095⟩ boot = ⟨-12, 335⟩ ∧
    ¬ (0 ≤ (mapToScreen ⟨0, 4095⟩ boot).x ∧ (mapToScreen ⟨0, 4095⟩ boot).x ≤ SCREEN_W - 1 ∧
       0 ≤ (mapToScreen ⟨0, 4095⟩ boot).y ∧ (mapToScreen ⟨0, 4095⟩ boot).y ≤ SCREEN_H - 1) := by
  refine ⟨by decide, by decide, by decide, by decide⟩

/-- Linear mapping of an in-range raw value: without overflow the result is the truncated
quotient `(v - lo) * out / (hi - lo)` and lies in `[0, out]`. -/
theorem map_inRange (v lo hi out : Int) (hlo : isInt16 lo) (hhi : isInt16 hi)
    (hlt : lo < hi) (h0 : lo ≤ v) (h1 : v ≤ hi) (hout0 : 0 ≤ out) (hout1 : out ≤ 32767) :
    map v lo hi 0 out = (v - lo) * out / (hi - lo) ∧
      0 ≤ map v lo hi 0 out ∧ map v lo hi 0 out ≤ out := by
  unfold isInt16 at hlo hhi
  have hrun : wrap32 (hi - lo) = hi - lo := wrap32_of_range _ (by omega) (by omega)
  have hrise : wrap32 (out - 0) = out := by
    rw [sub_zero]; exact wrap32_of_range _ (by omega) (by omega)
  have hdelta : wrap32 (v - lo) = v - lo := wrap32_of_range _ (by omega) (by omega)
  have hd0 : 0 ≤ v - lo := by omega
  have hd1 : v - lo ≤ hi - lo := by omega
  have hr0 : 0 < hi - lo := by omega
  have hp0 : 0 ≤ (v - lo) * out := mul_nonneg hd0 hout0
  have hp1 : (v - lo) * out ≤ (hi - lo) * out := mul_le_mul_of_nonneg_right hd1 hout0
  have hp2 : (hi - lo) * out ≤ 65535 * 32767 :=
    mul_le_mul (by omega) hout1 hout0 (by omega)
  have hprod : wrap32 ((v - lo) * out) = (v - lo) * out :=
    wrap32_of_range _ (by omega) (by omega)
  have hq0 : 0 ≤ (v - lo) * out / (hi - lo) := Int.ediv_nonneg hp0 hr0.le
  have hq1 : (v - lo) * out / (hi - lo) ≤ out := by
    have := Int.ediv_le_ediv hr0 hp1
    rwa [Int.mul_ediv_cancel_left _ hr0.ne'] at this
  have hval : map v lo hi 0 out = (v - lo) * out / (hi - lo) := by
    unfold map
    simp only [hrun, hrise, hdelta, hprod]
    have hq : wrap32 ((v - lo) * out / (hi - lo)) = (v - lo) * out / (hi - lo) :=
      wrap32_of_range _ (by omega) (by omega)
    rw [if_neg hr0.ne', Int.tdiv_eq_ediv hp0 hr0.le, add_zero, hq, hq]
  rw [hval]
  exact ⟨rfl, hq0, hq1⟩

/-- C10, amended.  For every calibration record with `maxRaw > minRaw` on both axes whose
bounds are 16-bit sample values, and every raw sample lying within the bounds, the mapped
point is `((rawX - minRawX) * 239 / (maxRawX - minRawX), (rawY - minRawY) * 319 /
(maxRawY - minRawY))` and lies on the screen: `0 ≤ x ≤ SCREEN_W - 1`, `0 ≤ y ≤ SCREEN_H - 1`. -/
theorem mapToScreen_inBounds (p : TS_Point) (g : Game)
    (hx : g.TS_MINX < g.TS_MAXX) (hy : g.TS_MINY < g.TS_MAXY)
    (hrx : isInt16 g.TS_MINX ∧ isInt16 g.TS_MAXX) (hry : isInt16 g.TS_MINY ∧ isInt16 g.TS_MAXY)
    (hpx : g.TS_MINX ≤ p.x ∧ p.x ≤ g.TS_MAXX) (hpy : g.TS_MINY ≤ p.y ∧ p.y ≤ g.TS_MAXY) :
    (mapToScreen p g).x = (p.x - g.TS_MINX) * (SCREEN_W - 1) / (g.TS_MAXX - g.TS_MINX) ∧
    (mapToScreen p g).y = (p.y - g.TS_MINY) * (SCREEN_H - 1) / (g.TS_MAXY - g.TS_MINY) ∧
    0 ≤ (mapToScreen p g).x ∧ (mapToScreen p g).x ≤ SCREEN_W - 1 ∧
    0 ≤ (mapToScreen p g).y ∧ (mapToScreen p g).y ≤ SCREEN_H - 1 := by
  have mx := map_inRange p.x g.TS_MINX g.TS_MAXX (SCREEN_W - 1) hrx.1 hrx.2 hx hpx.1 hpx.2
    (by decide) (by decide)
  have my := map_inRange p.y g.TS_MINY g.TS_MAXY (SCREEN_H - 1) hry.1 hry.2 hy hpy.1 hpy.2
    (by decide) (by decide)
  exact ⟨mx.1, my.1, mx.2.1, mx.2.2, my.2.1, my.2.2⟩

/-- Instance of the amended C10 under the default calibration. -/
theorem mapToScreen_inBounds_witness :
    mapToScreen ⟨2050, 3900⟩ boot = ⟨119, 319⟩ ∧
    (0 ≤ (mapToScreen ⟨2050, 3900⟩ boot).x ∧ (mapToScreen ⟨2050, 3900⟩ boot).x ≤ SCREEN_W - 1 ∧
     0 ≤ (mapToScreen ⟨2050, 3900⟩ boot).y ∧ (mapToScreen ⟨2050, 3900⟩ boot).y ≤ SCREEN_H - 1) :=
  ⟨by decide,
    (mapToScreen_inBounds ⟨2050, 3900⟩ boot (by decide) (by decide) (by decide) (by decide)
      (by decide) (by decide)).2.2⟩

/-! ## Claims about degenerate calibration and the calibration bounds -/

/-- A zero-width input range makes `map` return `-1`. -/
theorem map_degenerate (v lo out_min out_max : Int) : map v lo lo out_min out_max = -1 := by
  unfold map
  have h : wrap32 (lo - lo) = 0 := by rw [sub_self]; decide
  simp only [h, if_true]

/-- C11 as stated fails: no error is raised on a zero-width range.  Four corner samples
with the same raw column give `TS_MINX = TS_MAXX = 500`; the raw sample `(1000, 2050)` is
then mapped to the point `(-1, 159)`, and `readControls` steers with it: the heading
turns from `(0,1)` to `(-1,0)`. -/
theorem mapToScreen_zeroWidth_silent :
    flatCalibration.TS_MAXX = flatCalibration.TS_MINX ∧
    mapToScreen ⟨1000, 2050⟩ flatCalibration = ⟨-1, 159⟩ ∧
    readControls (some ⟨1000, 2050⟩) flatCalibration =
      { flatCalibration with dirX := -1, dirY := 0 } := by
  refine ⟨by decide, by decide, by decide⟩

/-- C11, amended.  For every calibration record with a zero-width input range on an axis
and every raw sample, the mapping raises no error.  `map` (the Arduino-ESP32 core
function, which answers an empty input range with `-1`) yields the coordinate `-1` on
that axis and `readControls` applies the heading update to the point with that
coordinate: with a zero-width X range, `dirX == 0` and a mapped row less than 121 pixels
from the centre row the heading becomes `(-1,0)`; with a zero-width Y range, `dirY == 0`
and a mapped column at most 161 pixels from the centre column the heading becomes
`(0,-1)`.  And `calibrateTouch` stores zero-width bounds on an axis, unchecked, exactly
when the four corner samples coincide on that axis. -/
theorem mapToScreen_zeroWidth (p : TS_Point) (g : Game) :
    (g.TS_MAXX = g.TS_MINX →
      (mapToScreen p g).x = -1 ∧
      readControls (some p) g = steer (-1) (mapToScreen p g).y g ∧
      (g.dirX = 0 → |(mapToScreen p g).y - SCREEN_H / 2| < 121 →
        readControls (some p) g = { g with dirX := -1, dirY := 0 })) ∧
    (g.TS_MAXY = g.TS_MINY →
      (mapToScreen p g).y = -1 ∧
      readControls (some p) g = steer (mapToScreen p g).x (-1) g ∧
      (g.dirY = 0 → |(mapToScreen p g).x - SCREEN_W / 2| ≤ 161 →
        readControls (some p) g = { g with dirX := 0, dirY := -1 })) ∧
    (∀ c0 c1 c2 c3 : TS_Point,
      ((calibrateTouch c0 c1 c2 c3 g).TS_MAXX = (calibrateTouch c0 c1 c2 c3 g).TS_MINX ↔
        c0.x = c1.x ∧ c1.x = c2.x ∧ c2.x = c3.x) ∧
      ((calibrateTouch c0 c1 c2 c3 g).TS_MAXY = (calibrateTouch c0 c1 c2 c3 g).TS_MINY ↔
        c0.y = c1.y ∧ c1.y = c2.y ∧ c2.y = c3.y)) := by
  have hw : Int.tdiv SCREEN_W 2 = 120 := by decide
  have hh : Int.tdiv SCREEN_H 2 = 160 := by decide
  have hw2 : SCREEN_W / 2 = 120 := by decide
  have hh2 : SCREEN_H / 2 = 160 := by decide
  refine ⟨fun h => ?_, fun h => ?_, fun c0 c1 c2 c3 => ⟨?_, ?_⟩⟩
  · have hx : (mapToScreen p g).x = -1 := by simp only [mapToScreen, h, map_degenerate]
    have hr : readControls (some p) g = steer (-1) (mapToScreen p g).y g := by
      simp only [readControls, hx]
    refine ⟨hx, hr, fun hd hy => ?_⟩
    rw [hr]
    rw [hh2] at hy
    unfold steer
    simp only [abs_eq, hw, hh]
    have h1 : |(-1 : Int) - 120| > |(mapToScreen p g).y - 160| := by
      have : |(-1 : Int) - 120| = 121 := by decide
      rw [this]; exact hy
    rw [if_pos h1, if_pos ⟨by decide, hd⟩]
  · have hy : (mapToScreen p g).y = -1 := by simp only [mapToScreen, h, map_degenerate]
    have hr : readControls (some p) g = steer (mapToScreen p g).x (-1) g := by
      simp only [readControls, hy]
    refine ⟨hy, hr, fun hd hx => ?_⟩
    rw [hr]
    rw [hw2] at hx
    unfold steer
    simp only [abs_eq, hw, hh]
    have h1 : ¬ |(mapToScreen p g).x - 120| > |(-1 : Int) - 160| := by
      have : |(-1 : Int) - 160| = 161 := by decide
      rw [this]; exact not_lt.2 hx
    rw [if_neg h1, if_pos ⟨by decide, hd⟩]
  · simp only [calibrateTouch]
    omega
  · simp only [calibrateTouch]
    omega

/-- Instance of the amended C11 at the zero-width calibration `flatCalibration`: its corner
samples share the raw column `500`, and the sample `(1000, 2050)` turns the heading. -/
theorem mapToScreen_zeroWidth_witness :
    flatCalibration.TS_MAXX = flatCalibration.TS_MINX ∧
    (mapToScreen ⟨1000, 2050⟩ flatCalibration).x = -1 ∧
    readControls (some ⟨1000, 2050⟩) flatCalibration =
      { flatCalibration with dirX := -1, dirY := 0 } :=
  ⟨((mapToScreen_zeroWidth ⟨0, 0⟩ { centred ⟨5, 5⟩ with dirX := 0, dirY := 1 }).2.2
      ⟨500, 300⟩ ⟨500, 300⟩ ⟨500, 3800⟩ ⟨500, 3800⟩).1.2 (by decide),
   ((mapToScreen_zeroWidth ⟨1000, 2050⟩ flatCalibration).1 (by decide)).1,
   ((mapToScreen_zeroWidth ⟨1000, 2050⟩ flatCalibration).1 (by decide)).2.2 (by decide)
      (by decide)⟩

/-- C12. Bounds of `calibrateTouch`: the role-grouped nesting of `min` and `max` equals the
pure minimum and maximum over the four corner samples of each axis, so every sample lies
between the stored bounds. -/
theorem calibrateTouch_bounds (c0 c1 c2 c3 : TS_Point) (g : Game) :
    (calibrateTouch c0 c1 c2 c3 g).TS_MINX = min (min c0.x c3.x) (min c1.x c2.x) ∧
    (calibrateTouch c0 c1 c2 c3 g).TS_MAXX = max (max c0.x c3.x) (max c1.x c2.x) ∧
    (calibrateTouch c0 c1 c2 c3 g).TS_MINY = min (min c0.y c1.y) (min c2.y c3.y) ∧
    (calibrateTouch c0 c1 c2 c3 g).TS_MAXY = max (max c0.y c1.y) (max c2.y c3.y) ∧
    (calibrateTouch c0 c1 c2 c3 g).TS_MINX = pureMin c0.x c1.x c2.x c3.x ∧
    (calibrateTouch c0 c1 c2 c3 g).TS_MAXX = pureMax c0.x c1.x c2.x c3.x ∧
    (calibrateTouch c0 c1 c2 c3 g).TS_MINY = pureMin c0.y c1.y c2.y c3.y ∧
    (calibrateTouch c0 c1 c2 c3 g).TS_MAXY = pureMax c0.y c1.y c2.y c3.y ∧
    (∀ c ∈ [c0, c1, c2, c3],
      (calibrateTouch c0 c1 c2 c3 g).TS_MINX ≤ c.x ∧
      c.x ≤ (calibrateTouch c0 c1 c2 c3 g).TS_MAXX ∧
      (calibrateTouch c0 c1 c2 c3 g).TS_MINY ≤ c.y ∧
      c.y ≤ (calibrateTouch c0 c1 c2 c3 g).TS_MAXY) := by
  simp only [calibrateTouch, pureMin, pureMax, List.foldl_cons, List.foldl_nil,
    List.mem_cons, List.mem_singleton, List.not_mem_nil, or_false]
  refine ⟨trivial, trivial, trivial, trivial, by omega, by omega, by omega, by omega, ?_⟩
  rintro c (rfl | rfl | rfl | rfl) <;> omega

/-! ## Claims about reset, growth, restart and tick gating -/

/-- The body of `resetGame()` as one food placement on the seeded snake. -/
theorem resetGame_eq (rng : Nat → Nat) (fuel : Nat) (g : Game) :
    resetGame rng fuel g =
      (placeFood rng [⟨12, 16⟩, ⟨11, 16⟩, ⟨10, 16⟩] fuel g.seed).map
        (fun r => { g with snake := [⟨12, 16⟩, ⟨11, 16⟩, ⟨10, 16⟩], dirX := 1, dirY := 0,
                           food := r.1, seed := r.2, gameOver := false }) := by
  unfold resetGame
  have h : ([⟨Int.tdiv COLS 2, Int.tdiv ROWS 2⟩, ⟨Int.tdiv COLS 2 - 1, Int.tdiv ROWS 2⟩,
      ⟨Int.tdiv COLS 2 - 2, Int.tdiv ROWS 2⟩] : List Point) =
      [⟨12, 16⟩, ⟨11, 16⟩, ⟨10, 16⟩] := by decide
  simp only [h]
  cases placeFood rng [⟨12, 16⟩, ⟨11, 16⟩, ⟨10, 16⟩] fuel g.seed with
  | none => rfl
  | some r => rfl

/-- What every returning `resetGame()` establishes. -/
theorem resetGame_some (rng : Nat → Nat) (fuel : Nat) (g g1 : Game)
    (h : resetGame rng fuel g = some g1) :
    g1.snake = [⟨12, 16⟩, ⟨11, 16⟩, ⟨10, 16⟩] ∧ g1.dirX = 1 ∧ g1.dirY = 0 ∧
      g1.gameOver = false ∧ inGrid g1.food ∧ g1.food ∉ g1.snake := by
  rw [resetGame_eq] at h
  cases hp : placeFood rng [⟨12, 16⟩, ⟨11, 16⟩, ⟨10, 16⟩] fuel g.seed with
  | none => rw [hp] at h; simp at h
  | some r =>
    obtain ⟨f, pos1⟩ := r
    rw [hp, Option.map_some', Option.some.injEq] at h
    have hnot := placeFood_not_mem rng _ fuel g.seed f pos1 hp
    obtain ⟨k, _, _, _, hf, _⟩ := (placeFood_eq_some_iff rng _ fuel g.seed f pos1).1 hp
    rw [← h]
    refine ⟨rfl, rfl, rfl, rfl, ?_, hnot⟩
    show inGrid f
    rw [hf]
    exact sample_inGrid rng _

/-- C13. `resetGame`: whenever it returns, the snake is
`[(COLS/2, ROWS/2), (COLS/2-1, ROWS/2), (COLS/2-2, ROWS/2)] = [(12,16),(11,16),(10,16)]`,
the heading is `(1,0)`, `gameOver` is false and the food is a grid cell that is none of the
three snake cells; and it returns as soon as a sample within `fuel` is off the snake. -/
theorem resetGame_seeds (rng : Nat → Nat) (fuel : Nat) (g : Game) :
    (∀ g1, resetGame rng fuel g = some g1 →
      g1.snake = [⟨COLS / 2, ROWS / 2⟩, ⟨COLS / 2 - 1, ROWS / 2⟩, ⟨COLS / 2 - 2, ROWS / 2⟩] ∧
      g1.snake = [⟨12, 16⟩, ⟨11, 16⟩, ⟨10, 16⟩] ∧
      g1.dirX = 1 ∧ g1.dirY = 0 ∧ g1.gameOver = false ∧
      (0 ≤ g1.food.x ∧ g1.food.x < COLS ∧ 0 ≤ g1.food.y ∧ g1.food.y < ROWS) ∧
      g1.food ≠ ⟨12, 16⟩ ∧ g1.food ≠ ⟨11, 16⟩ ∧ g1.food ≠ ⟨10, 16⟩) ∧
    ((∃ k, k < fuel ∧
        sample rng (g.seed + 2 * k) ∉ ([⟨12, 16⟩, ⟨11, 16⟩, ⟨10, 16⟩] : List Point)) →
      ∃ g1, resetGame rng fuel g = some g1) := by
  refine ⟨fun g1 h => ?_, fun h => ?_⟩
  · obtain ⟨hs, hdx, hdy, hover, hgrid, hnot⟩ := resetGame_some rng fuel g g1 h
    rw [hs] at hnot
    simp only [List.mem_cons, List.mem_singleton, List.not_mem_nil, or_false, not_or] at hnot
    refine ⟨?_, hs, hdx, hdy, hover, hgrid, hnot.1, hnot.2.1, hnot.2.2⟩
    rw [hs]
    decide
  · obtain ⟨r, hr⟩ := placeFood_returns rng _ fuel g.seed h
    rw [resetGame_eq, hr]
    exact ⟨_, rfl⟩

/-- Instance of C13 from the boot state with every sample at the free cell `(0,0)`. -/
theorem resetGame_seeds_witness :
    ∃ g1, resetGame zeroRng 1 boot = some g1 :=
  (resetGame_seeds zeroRng 1 boot).2 ⟨0, by decide, by decide⟩

/-- C14. Growth rule of a tick whose candidate head is not on the snake.  If the candidate
equals the food, a returning tick yields the candidate followed by the entire old snake
(length plus one) with the food re-placed by `placeFood` on the grown snake, and it
returns once a sample within `fuel` is free; otherwise the tick yields the candidate
followed by the old snake without its last cell (same length) and the food is unchanged. -/
theorem tick_eat_or_move (rng : Nat → Nat) (fuel : Nat) (g : Game) (head : Point)
    (rest : List Point) (hs : g.snake = head :: rest)
    (hfree : newHead head g.dirX g.dirY ∉ g.snake) :
    (newHead head g.dirX g.dirY = g.food →
      (∀ g1, tick rng fuel g = some g1 →
        g1.snake = newHead head g.dirX g.dirY :: g.snake ∧
        g1.snake.length = g.snake.length + 1 ∧
        placeFood rng (newHead head g.dirX g.dirY :: g.snake) fuel g.seed =
          some (g1.food, g1.seed)) ∧
      ((∃ k, k < fuel ∧
          sample rng (g.seed + 2 * k) ∉ newHead head g.dirX g.dirY :: g.snake) →
        ∃ g1, tick rng fuel g = some g1)) ∧
    (newHead head g.dirX g.dirY ≠ g.food →
      ∃ g1, tick rng fuel g = some g1 ∧
        g1.snake = newHead head g.dirX g.dirY :: g.snake.dropLast ∧
        g1.snake.length = g.snake.length ∧ g1.food = g.food) := by
  refine ⟨fun heq => ⟨fun g1 htick => ?_, fun h => ?_⟩, fun hne => ?_⟩
  · rw [tick_eat rng fuel g head rest hs hfree heq] at htick
    cases hp : placeFood rng (newHead head g.dirX g.dirY :: g.snake) fuel g.seed with
    | none => rw [hp] at htick; simp at htick
    | some r =>
      rw [hp, Option.map_some', Option.some.injEq] at htick
      rw [← htick]
      exact ⟨rfl, by simp, rfl⟩
  · exact tick_returns rng fuel g head rest hs (Or.inr h)
  · refine ⟨_, tick_move rng fuel g head rest hs hfree hne, ?_, ?_, rfl⟩
    · simp only [hs]; rfl
    · simp [hs]

/-- Instance of C14 at the reset snake with the food one step ahead. -/
theorem tick_eat_or_move_witness :
    ∃ g1, tick zeroRng 1 (centred ⟨13, 16⟩) = some g1 :=
  ((tick_eat_or_move zeroRng 1 (centred ⟨13, 16⟩) ⟨12, 16⟩ [⟨11, 16⟩, ⟨10, 16⟩] (by decide)
      (by decide)).1 (by decide)).2 ⟨0, by decide, by decide⟩

/-- C15. Terminal state.  With `gameOver` set, a pass of `loop` without touch returns the
state unchanged (no tick, no controller call), and a pass with a touch is exactly
`resetGame`: it returns once food placement returns, with `gameOver` cleared. -/
theorem loop_gameOver (rng : Nat → Nat) (fuel : Nat) (inp : Pass) (g : Game)
    (hover : g.gameOver = true) :
    (inp.touch = none → loop rng fuel inp g = some g) ∧
    (∀ p, inp.touch = some p →
      loop rng fuel inp g = resetGame rng fuel g ∧
      (∀ g1, loop rng fuel inp g = some g1 → g1.gameOver = false) ∧
      ((∃ k, k < fuel ∧
          sample rng (g.seed + 2 * k) ∉ ([⟨12, 16⟩, ⟨11, 16⟩, ⟨10, 16⟩] : List Point)) →
        ∃ g1, loop rng fuel inp g = some g1)) := by
  refine ⟨fun h => ?_, fun p h => ?_⟩
  · simp [loop, hover, h]
  · have hl : loop rng fuel inp g = resetGame rng fuel g := by simp [loop, hover, h]
    refine ⟨hl, fun g1 h1 => ?_, fun hk => ?_⟩
    · rw [hl] at h1
      exact (resetGame_some rng fuel g g1 h1).2.2.2.1
    · obtain ⟨r, hr⟩ := placeFood_returns rng _ fuel g.seed hk
      rw [hl, resetGame_eq, hr]
      exact ⟨_, rfl⟩

/-- Instance of C15 at the `crashed` state: without touch nothing changes. -/
theorem loop_gameOver_witness :
    loop zeroRng 1 ⟨none, 400⟩ crashed = some crashed :=
  (loop_gameOver zeroRng 1 ⟨none, 400⟩ crashed (by decide)).1 (by decide)

/-- The heading update changes nothing but the heading. -/
theorem steer_frame (x y : Int) (g : Game) :
    steer x y g = { g with dirX := (steer x y g).dirX, dirY := (steer x y g).dirY } := by
  unfold steer
  simp only []
  split_ifs <;> rfl

/-- A call of `readControls` changes nothing but the heading. -/
theorem readControls_frame (t : Option TS_Point) (g : Game) :
    readControls t g =
      { g with dirX := (readControls t g).dirX, dirY := (readControls t g).dirY } := by
  cases t with
  | none => rfl
  | some p => exact steer_frame _ _ g

/-- A tick never writes `lastMove`. -/
theorem tick_lastMove (rng : Nat → Nat) (fuel : Nat) (g g1 : Game)
    (h : tick rng fuel g = some g1) : g1.lastMove = g.lastMove := by
  cases hs : g.snake with
  | nil => simp [tick, hs] at h
  | cons head rest =>
    by_cases hhit : newHead head g.dirX g.dirY ∈ g.snake
    · rw [tick_collision rng fuel g head rest hs hhit, Option.some.injEq] at h
      rw [← h]
    · by_cases heq : newHead head g.dirX g.dirY = g.food
      · rw [tick_eat rng fuel g head rest hs hhit heq] at h
        cases hp : placeFood rng (newHead head g.dirX g.dirY :: g.snake) fuel g.seed with
        | none => rw [hp] at h; simp at h
        | some r =>
          rw [hp, Option.map_some', Option.some.injEq] at h
          rw [← h]
      · rw [tick_move rng fuel g head rest hs hhit heq, Option.some.injEq] at h
        rw [← h]

/-- C16. Tick gating in a running state, for 32-bit clock values.  If the unsigned
difference `(now - lastMove) mod 2^32` is below `150`, the pass returns with snake, food,
`gameOver` and `lastMove` unchanged.  If it is at least `150`, the pass is exactly one
tick evaluated after `readControls` with `lastMove = now`; every returning pass has
`lastMove = now`, and a tick that runs into the snake returns with `gameOver` set and
`lastMove = now`. -/
theorem loop_tick_gate (rng : Nat → Nat) (fuel : Nat) (inp : Pass) (g : Game)
    (hrun : g.gameOver = false) (hnow : inp.now < 4294967296)
    (hlast : g.lastMove < 4294967296) :
    (((inp.now : Int) - (g.lastMove : Int)) % 4294967296 < 150 →
      ∃ g1, loop rng fuel inp g = some g1 ∧ g1.snake = g.snake ∧ g1.food = g.food ∧
        g1.gameOver = g.gameOver ∧ g1.lastMove = g.lastMove) ∧
    (150 ≤ ((inp.now : Int) - (g.lastMove : Int)) % 4294967296 →
      loop rng fuel inp g =
        tick rng fuel { readControls inp.touch g with lastMove := inp.now } ∧
      (∀ g1, loop rng fuel inp g = some g1 → g1.lastMove = inp.now) ∧
      (∀ head rest, g.snake = head :: rest →
        newHead head (readControls inp.touch g).dirX (readControls inp.touch g).dirY ∈ g.snake →
        loop rng fuel inp g =
          some { readControls inp.touch g with lastMove := inp.now, gameOver := true })) := by
  have hfr := readControls_frame inp.touch g
  have hlm : (readControls inp.touch g).lastMove = g.lastMove := by rw [hfr]
  have hsn : (readControls inp.touch g).snake = g.snake := by rw [hfr]
  have hmod : inp.now % 4294967296 = inp.now := Nat.mod_eq_of_lt hnow
  refine ⟨fun hlt => ?_, fun hge => ?_⟩
  · have hgate : (inp.now % 4294967296 + 4294967296 -
        (readControls inp.touch g).lastMove % 4294967296) % 4294967296 < speedMs := by
      rw [hlm]; unfold speedMs; omega
    refine ⟨readControls inp.touch g, ?_, hsn, by rw [hfr], by rw [hfr], hlm⟩
    unfold loop
    simp only [hrun, Bool.false_eq_true, if_false]
    rw [if_pos hgate]
  · have hgate : ¬ (inp.now % 4294967296 + 4294967296 -
        (readControls inp.touch g).lastMove % 4294967296) % 4294967296 < speedMs := by
      rw [hlm]; unfold speedMs; omega
    have hl : loop rng fuel inp g =
        tick rng fuel { readControls inp.touch g with lastMove := inp.now } := by
      unfold loop
      simp only [hrun, Bool.false_eq_true, if_false]
      rw [if_neg hgate, hmod]
    refine ⟨hl, fun g1 h1 => ?_, fun head rest hs hhit => ?_⟩
    · rw [hl] at h1
      exact tick_lastMove rng fuel _ g1 h1
    · rw [hl]
      exact tick_collision rng fuel { readControls inp.touch g with lastMove := inp.now }
        head rest (by simpa [hsn] using hs) (by simpa [hsn] using hhit)

/-- Instances of C16 at the reset snake with `lastMove = 0`: no tick at `now = 100`, one
tick at `now = 150`. -/
theorem loop_tick_gate_witness :
    (∃ g1, loop zeroRng 0 ⟨none, 100⟩ (centred ⟨5, 5⟩) = some g1 ∧
      g1.snake = (centred ⟨5, 5⟩).snake ∧ g1.food = (centred ⟨5, 5⟩).food ∧
      g1.gameOver = (centred ⟨5, 5⟩).gameOver ∧ g1.lastMove = (centred ⟨5, 5⟩).lastMove) ∧
    loop zeroRng 0 ⟨none, 150⟩ (centred ⟨5, 5⟩) =
      tick zeroRng 0 { readControls none (centred ⟨5, 5⟩) with lastMove := 150 } :=
  ⟨(loop_tick_gate zeroRng 0 ⟨none, 100⟩ (centred ⟨5, 5⟩) (by decide) (by decide)
      (by decide)).1 (by decide),
   ((loop_tick_gate zeroRng 0 ⟨none, 150⟩ (centred ⟨5, 5⟩) (by decide) (by decide)
      (by decide)).2 (by decide)).1⟩

/-! ## Claims about reachable states -/

/-- The candidate head is always a grid cell. -/
theorem newHead_inGrid (head : Point) (dirX dirY : Int) : inGrid (newHead head dirX dirY) := by
  simp only [inGrid, newHead, COLS_eq, ROWS_eq]
  refine ⟨?_, ?_, ?_, ?_⟩ <;> split_ifs <;> omega

/-- A returning tick keeps the invariant and does not shorten the snake. -/
theorem tick_safe (rng : Nat → Nat) (fuel : Nat) (g g1 : Game) (hsafe : Safe g)
    (h : tick rng fuel g = some g1) : Safe g1 ∧ g.snake.length ≤ g1.snake.length := by
  obtain ⟨hu, hlen, hnd, hgrid, hfg, hfs⟩ := hsafe
  cases hs : g.snake with
  | nil => simp [tick, hs] at h
  | cons head rest =>
    by_cases hhit : newHead head g.dirX g.dirY ∈ g.snake
    · rw [tick_collision rng fuel g head rest hs hhit, Option.some.injEq] at h
      rw [← h, ← hs]
      exact ⟨⟨hu, hlen, hnd, hgrid, hfg, hfs⟩, le_refl _⟩
    · have hcons : (newHead head g.dirX g.dirY :: g.snake).Nodup :=
        List.nodup_cons.2 ⟨hhit, hnd⟩
      have hgridc : ∀ p ∈ newHead head g.dirX g.dirY :: g.snake, inGrid p := by
        intro p hp
        rcases List.mem_cons.1 hp with e | hp
        · rw [e]; exact newHead_inGrid _ _ _
        · exact hgrid p hp
      by_cases heq : newHead head g.dirX g.dirY = g.food
      · rw [tick_eat rng fuel g head rest hs hhit heq] at h
        cases hp : placeFood rng (newHead head g.dirX g.dirY :: g.snake) fuel g.seed with
        | none => rw [hp] at h; simp at h
        | some r =>
          obtain ⟨f, pos1⟩ := r
          have hnot := placeFood_not_mem rng _ fuel g.seed f pos1 hp
          obtain ⟨k, _, _, _, hf, _⟩ := (placeFood_eq_some_iff rng _ fuel g.seed f pos1).1 hp
          rw [hp, Option.map_some', Option.some.injEq] at h
          rw [← h, ← hs]
          refine ⟨⟨hu, ?_, hcons, hgridc, ?_, hnot⟩, ?_⟩
          · simp only [List.length_cons]; omega
          · show inGrid f
            rw [hf]; exact sample_inGrid rng _
          · simp only [List.length_cons]; omega
      · rw [tick_move rng fuel g head rest hs hhit heq, Option.some.injEq] at h
        have hsub := List.dropLast_sublist (newHead head g.dirX g.dirY :: g.snake)
        have hl : (newHead head g.dirX g.dirY :: g.snake).dropLast.length = g.snake.length := by
          simp [List.length_dropLast]
        rw [← h, ← hs]
        refine ⟨⟨hu, ?_, hcons.sublist hsub, fun p hp => hgridc p (hsub.subset hp), hfg, ?_⟩, ?_⟩
        · show 3 ≤ (newHead head g.dirX g.dirY :: g.snake).dropLast.length
          rw [hl]; exact hlen
        · intro hmem
          rcases List.mem_cons.1 (hsub.subset hmem) with e | hm
          · exact heq e.symm
          · exact hfs hm
        · show g.snake.length ≤ (newHead head g.dirX g.dirY :: g.snake).dropLast.length
          rw [hl]

/-- Every reachable state satisfies the invariant. -/
theorem reachable_safe (rng : Nat → Nat) (g : Game) (h : Reachable rng g) : Safe g := by
  induction h with
  | reset fuel g g1 hr =>
    obtain ⟨hs, hdx, hdy, _, hgrid, hnot⟩ := resetGame_some rng fuel g g1 hr
    refine ⟨by rw [hdx, hdy]; decide, by rw [hs]; decide, by rw [hs]; decide, ?_, hgrid, hnot⟩
    rw [hs]
    decide
  | control t g _ ih =>
    obtain ⟨hu, hlen, hnd, hgrid, hfg, hfs⟩ := ih
    have hfr := readControls_frame t g
    refine ⟨(readControls_unit t g hu).1, ?_, ?_, ?_, ?_, ?_⟩
    · rw [hfr]; exact hlen
    · rw [hfr]; exact hnd
    · rw [hfr]; exact hgrid
    · rw [hfr]; exact hfg
    · rw [hfr]; exact hfs
  | step fuel now g g1 _ ht ih =>
    exact (tick_safe rng fuel { g with lastMove := now } g1 ih ht).1

/-- A pass of `loop()` leads from reachable states to reachable states. -/
theorem loop_reachable (rng : Nat → Nat) (fuel : Nat) (inp : Pass) (g g1 : Game)
    (hg : Reachable rng g) (h : loop rng fuel inp g = some g1) : Reachable rng g1 := by
  unfold loop at h
  by_cases hover : g.gameOver = true
  · simp only [hover, if_true] at h
    by_cases ht : inp.touch.isSome = true
    · simp only [ht, if_true] at h
      exact Reachable.reset fuel g g1 h
    · simp only [ht, if_false, Bool.false_eq_true, Option.some.injEq] at h
      rw [← h]; exact hg
  · simp only [hover, if_false, Bool.false_eq_true] at h
    split_ifs at h with hgate
    · rw [Option.some.injEq] at h
      rw [← h]; exact Reachable.control _ _ hg
    · exact Reachable.step fuel _ _ g1 (Reachable.control inp.touch g hg) h

/-- Every run of `loop()` passes leads from reachable states to reachable states. -/
theorem run_reachable (rng : Nat → Nat) (fuel : Nat) (passes : List Pass) (g g1 : Game)
    (hg : Reachable rng g) (h : run rng fuel passes g = some g1) : Reachable rng g1 := by
  induction passes generalizing g with
  | nil =>
    simp only [run, Option.some.injEq] at h
    rw [← h]; exact hg
  | cons inp rest ih =>
    unfold run at h
    cases hl : loop rng fuel inp g with
    | none => rw [hl] at h; simp at h
    | some g2 =>
      rw [hl] at h
      exact ih g2 (loop_reachable rng fuel inp g g2 hg hl) h

/-- C17. Heading of reachable states: in every state reachable from `resetGame` by
controller calls, game ticks and restarts, `(dirX, dirY)` is one of `(1,0)`, `(-1,0)`,
`(0,1)`, `(0,-1)`, and it is not the zero vector. -/
theorem reachable_heading_unit (rng : Nat → Nat) (g : Game) (h : Reachable rng g) :
    ((g.dirX, g.dirY) = (1, 0) ∨ (g.dirX, g.dirY) = (-1, 0) ∨
      (g.dirX, g.dirY) = (0, 1) ∨ (g.dirX, g.dirY) = (0, -1)) ∧
    (g.dirX, g.dirY) ≠ (0, 0) := by
  have hu := (reachable_safe rng g h).1
  unfold isUnit at hu
  simp only [Prod.mk.injEq, ne_eq]
  refine ⟨hu, ?_⟩
  omega

/-- Instance of C17 after `setup()` and a touch above the centre: the heading is `(0,-1)`. -/
theorem reachable_heading_unit_witness :
    (((readControls (some ⟨2050, 200⟩) fresh).dirX, (readControls (some ⟨2050, 200⟩) fresh).dirY)
        = (1, 0) ∨
      ((readControls (some ⟨2050, 200⟩) fresh).dirX, (readControls (some ⟨2050, 200⟩) fresh).dirY)
        = (-1, 0) ∨
      ((readControls (some ⟨2050, 200⟩) fresh).dirX, (readControls (some ⟨2050, 200⟩) fresh).dirY)
        = (0, 1) ∨
      ((readControls (some ⟨2050, 200⟩) fresh).dirX, (readControls (some ⟨2050, 200⟩) fresh).dirY)
        = (0, -1)) ∧
    ((readControls (some ⟨2050, 200⟩) fresh).dirX, (readControls (some ⟨2050, 200⟩) fresh).dirY)
      ≠ (0, 0) :=
  reachable_heading_unit zeroRng (readControls (some ⟨2050, 200⟩) fresh)
    (Reachable.control (some ⟨2050, 200⟩) fresh (Reachable.reset 1 boot fresh (by decide)))

/-- C18. Snake of reachable states: in every state reachable from `resetGame` by
controller calls, game ticks and restarts, the snake is non-empty (it has a head), has at
least three cells and no duplicate cells, and no returning tick makes it shorter. -/
theorem reachable_snake (rng : Nat → Nat) (g : Game) (h : Reachable rng g) :
    g.snake ≠ [] ∧ (∃ head rest, g.snake = head :: rest) ∧ 3 ≤ g.snake.length ∧
    g.snake.Nodup ∧
    (∀ fuel g1, tick rng fuel g = some g1 → g.snake.length ≤ g1.snake.length) := by
  have hsafe := reachable_safe rng g h
  have hlen : 3 ≤ g.snake.length := hsafe.2.1
  have hnd : g.snake.Nodup := hsafe.2.2.1
  refine ⟨?_, ?_, hlen, hnd, fun fuel g1 ht => (tick_safe rng fuel g g1 hsafe ht).2⟩
  · intro e
    rw [e] at hlen
    simp at hlen
  · cases hs : g.snake with
    | nil => rw [hs] at hlen; simp at hlen
    | cons head rest => exact ⟨head, rest, rfl⟩

/-- Instance of C18 after `setup()` and one tick to the right. -/
theorem reachable_snake_witness :
    ({ fresh with snake := [⟨13, 16⟩, ⟨12, 16⟩, ⟨11, 16⟩], lastMove := 150 } : Game).snake.Nodup ∧
    3 ≤ ({ fresh with snake := [⟨13, 16⟩, ⟨12, 16⟩, ⟨11, 16⟩], lastMove := 150 } : Game).snake.length :=
  ⟨(reachable_snake zeroRng
      { fresh with snake := [⟨13, 16⟩, ⟨12, 16⟩, ⟨11, 16⟩], lastMove := 150 }
      (Reachable.step 0 150 fresh _ (Reachable.reset 1 boot fresh (by decide))
        (by decide))).2.2.2.1,
   (reachable_snake zeroRng
      { fresh with snake := [⟨13, 16⟩, ⟨12, 16⟩, ⟨11, 16⟩], lastMove := 150 }
      (Reachable.step 0 150 fresh _ (Reachable.reset 1 boot fresh (by decide))
        (by decide))).2.2.1⟩

/-- C19. Grid bounds of reachable states: in every state reachable from `resetGame` by
controller calls, game ticks and restarts, every snake cell and the food cell satisfy
`0 ≤ x < COLS = 24` and `0 ≤ y < ROWS = 32`. -/
theorem reachable_inGrid (rng : Nat → Nat) (g : Game) (h : Reachable rng g) :
    (∀ p ∈ g.snake, 0 ≤ p.x ∧ p.x < COLS ∧ 0 ≤ p.y ∧ p.y < ROWS) ∧
    (0 ≤ g.food.x ∧ g.food.x < COLS ∧ 0 ≤ g.food.y ∧ g.food.y < ROWS) ∧
    COLS = 24 ∧ ROWS = 32 := by
  obtain ⟨_, _, _, hgrid, hfg, _⟩ := reachable_safe rng g h
  exact ⟨hgrid, hfg, COLS_eq, ROWS_eq⟩

/-- Instance of C19 in the state left by `setup()`. -/
theorem reachable_inGrid_witness :
    (∀ p ∈ fresh.snake, 0 ≤ p.x ∧ p.x < COLS ∧ 0 ≤ p.y ∧ p.y < ROWS) ∧
    (0 ≤ fresh.food.x ∧ fresh.food.x < COLS ∧ 0 ≤ fresh.food.y ∧ fresh.food.y < ROWS) :=
  ⟨(reachable_inGrid zeroRng fresh (Reachable.reset 1 boot fresh (by decide))).1,
   (reachable_inGrid zeroRng fresh (Reachable.reset 1 boot fresh (by decide))).2.1⟩

/-- C20. Food of reachable states: in every state reachable from `resetGame` by
controller calls, completed game ticks and restarts, the food cell differs from every
snake cell. -/
theorem reachable_food_off_snake (rng : Nat → Nat) (g : Game) (h : Reachable rng g) :
    ∀ p ∈ g.snake, g.food ≠ p := by
  obtain ⟨_, _, _, _, _, hfs⟩ := reachable_safe rng g h
  intro p hp e
  exact hfs (e ▸ hp)

/-- Instance of C20 after the three passes of `doubleTurn`, which end in the terminal state. -/
theorem reachable_food_off_snake_witness :
    run zeroRng 0 doubleTurn fresh =
      some { fresh with snake := [⟨13, 16⟩, ⟨12, 16⟩, ⟨11, 16⟩], lastMove := 330,
                        dirX := -1, dirY := 0, gameOver := true } ∧
    (⟨0, 0⟩ : Point) ≠ ⟨13, 16⟩ ∧ (⟨0, 0⟩ : Point) ≠ ⟨12, 16⟩ ∧ (⟨0, 0⟩ : Point) ≠ ⟨11, 16⟩ :=
  ⟨by decide,
   reachable_food_off_snake zeroRng
    { fresh with snake := [⟨13, 16⟩, ⟨12, 16⟩, ⟨11, 16⟩], lastMove := 330,
                 dirX := -1, dirY := 0, gameOver := true }
    (run_reachable zeroRng 0 doubleTurn fresh _ (Reachable.reset 1 boot fresh (by decide))
      (by decide)) ⟨13, 16⟩ (by decide),
   reachable_food_off_snake zeroRng
    { fresh with snake := [⟨13, 16⟩, ⟨12, 16⟩, ⟨11, 16⟩], lastMove := 330,
                 dirX := -1, dirY := 0, gameOver := true }
    (run_reachable zeroRng 0 doubleTurn fresh _ (Reachable.reset 1 boot fresh (by decide))
      (by decide)) ⟨12, 16⟩ (by decide),
   reachable_food_off_snake zeroRng
    { fresh with snake := [⟨13, 16⟩, ⟨12, 16⟩, ⟨11, 16⟩], lastMove := 330,
                 dirX := -1, dirY := 0, gameOver := true }
    (run_reachable zeroRng 0 doubleTurn fresh _ (Reachable.reset 1 boot fresh (by decide))
      (by decide)) ⟨11, 16⟩ (by decide)⟩

end SnakeGame
